import Mathlib

/-!
Shallow embedding of the cleaning pipeline of `cbs_pandas`
(`src/cbs_pandas/core/dataset.py`).

A pandas `DataFrame` is modelled as a list of column names together with a
list of rows; every row is an association list from column name to cell
value.  Cells carry the values that actually occur in this pipeline:
strings, integers, timestamps (produced by `dt.datetime(y, m, d)`) and the
null value (covering both `None` and `NaN`).  Fallible pandas operations
(`df[col]` on a missing column, `dt.datetime` on an out-of-range component,
`DataFrame.pivot` on duplicate index entries) are modelled with
`Except String`, the error string being the message of the Python
exception.  The embedding models object-dtype frames, which is what
`pd.DataFrame` produces from the JSON observation records this library
fetches.
-/

namespace CbsPandas

/-- A cell of a data frame: null (None/NaN), a string, an integer, or a
timestamp produced by `dt.datetime (year, month, day)`. -/
inductive Cell where
  | null : Cell
  | str (s : String) : Cell
  | int (n : Int) : Cell
  | date (y m d : Nat) : Cell
deriving DecidableEq, Repr

/-- A row: an association list from column name to cell. -/
abbrev Row := List (String × Cell)

/-- A data frame: ordered column names plus rows keyed by column name. -/
structure Table where
  cols : List String
  rows : List Row
deriving DecidableEq, Repr

/-- Look a cell up in a row by column name (first matching entry). -/
def lookupCell (r : Row) (k : String) : Cell :=
  match r with
  | [] => Cell.null
  | p :: r' => if p.1 = k then p.2 else lookupCell r' k

/-- Whether the row has an entry for the given column name. -/
def rowHas (r : Row) (k : String) : Bool :=
  r.any (fun p => p.1 = k)

/-- Python-style column assignment restricted to one row: overwrite every
entry with this key, or append a new entry when the key is absent
(pandas `df[col] = value` semantics at row level). -/
def rowSet (r : Row) (k : String) (v : Cell) : Row :=
  if rowHas r k then r.map (fun p => if p.1 = k then (k, v) else p)
  else r ++ [(k, v)]

/-- Apply a function to the entries of one column of a row
(`df[col] = df[col].map f` at row level). -/
def rowMapCol (k : String) (f : Cell → Cell) (r : Row) : Row :=
  r.map (fun p => if p.1 = k then (p.1, f p.2) else p)

/-- Remove the entries of the named columns from a row. -/
def rowDropCols (names : List String) (r : Row) : Row :=
  r.filter (fun p => decide (p.1 ∉ names))

/-- Append a column name if it is not present yet (pandas appends new
columns at the right edge of the frame). -/
def addColName (cs : List String) (n : String) : List String :=
  if n ∈ cs then cs else cs ++ [n]

@[simp] theorem lookupCell_nil (k : String) : lookupCell [] k = Cell.null := rfl

@[simp] theorem lookupCell_cons (p : String × Cell) (r : Row) (k : String) :
    lookupCell (p :: r) k = if p.1 = k then p.2 else lookupCell r k := rfl

theorem lookupCell_of_not_rowHas (r : Row) (k : String)
    (h : rowHas r k = false) : lookupCell r k = Cell.null := by
  induction r with
  | nil => rfl
  | cons p r' ih =>
    have hp : ¬ (p.1 = k) := by
      intro hq
      simp [rowHas, hq] at h
    have h' : rowHas r' k = false := by
      simp only [rowHas, List.any_cons, Bool.or_eq_false_iff] at h
      exact h.2
    simp [hp, ih h']

theorem lookupCell_append (r s : Row) (k : String) :
    lookupCell (r ++ s) k =
      if rowHas r k then lookupCell r k else lookupCell s k := by
  induction r with
  | nil => simp [rowHas]
  | cons p r' ih =>
    simp only [List.cons_append, lookupCell_cons]
    by_cases hp : p.1 = k
    · have hb : rowHas (p :: r') k = true := by simp [rowHas, hp]
      rw [if_pos hp, hb, if_pos rfl, if_pos hp]
    · have hb : rowHas (p :: r') k = rowHas r' k := by simp [rowHas, hp]
      rw [if_neg hp, if_neg hp, ih, hb]

theorem lookupCell_overwrite_same (r : Row) (k : String) (v : Cell)
    (h : rowHas r k = true) :
    lookupCell (r.map (fun p => if p.1 = k then (k, v) else p)) k = v := by
  induction r with
  | nil => simp [rowHas] at h
  | cons p r' ih =>
    simp only [List.map_cons, lookupCell_cons]
    by_cases hp : p.1 = k
    · rw [if_pos hp]
      exact if_pos rfl
    · have h' : rowHas r' k = true := by
        simp only [rowHas, List.any_cons, Bool.or_eq_true] at h
        rcases h with h | h
        · exact absurd (by simpa using h) hp
        · exact h
      rw [if_neg hp, if_neg hp]
      exact ih h'

theorem lookupCell_overwrite_ne (r : Row) (k k' : String) (v : Cell)
    (hk : k' ≠ k) :
    lookupCell (r.map (fun p => if p.1 = k then (k, v) else p)) k' =
      lookupCell r k' := by
  induction r with
  | nil => simp
  | cons p r' ih =>
    simp only [List.map_cons, lookupCell_cons]
    by_cases hp : p.1 = k
    · rw [if_pos hp]
      have h1 : ¬ ((k, v).1 = k') := fun h => hk (by simpa using h.symm)
      have h2 : ¬ (p.1 = k') := by
        rw [hp]; exact fun h => hk h.symm
      rw [if_neg h1, if_neg h2, ih]
    · rw [if_neg hp]
      by_cases hq : p.1 = k'
      · rw [if_pos hq, if_pos hq]
      · rw [if_neg hq, if_neg hq, ih]

theorem lookupCell_rowSet_same (r : Row) (k : String) (v : Cell) :
    lookupCell (rowSet r k v) k = v := by
  unfold rowSet
  by_cases h : rowHas r k = true
  · rw [if_pos h]
    exact lookupCell_overwrite_same r k v h
  · rw [if_neg h, lookupCell_append]
    have hb : rowHas r k = false := by
      revert h; cases rowHas r k <;> simp
    rw [hb]
    simp

theorem lookupCell_rowSet_ne (r : Row) (k k' : String) (v : Cell)
    (hk : k' ≠ k) : lookupCell (rowSet r k v) k' = lookupCell r k' := by
  unfold rowSet
  by_cases h : rowHas r k = true
  · rw [if_pos h]
    exact lookupCell_overwrite_ne r k k' v hk
  · rw [if_neg h, lookupCell_append]
    by_cases hr : rowHas r k' = true
    · rw [hr, if_pos rfl]
    · have hb : rowHas r k' = false := by
        revert hr; cases rowHas r k' <;> simp
      rw [if_neg hr, lookupCell_of_not_rowHas r k' hb]
      simp only [lookupCell_cons, lookupCell_nil]
      exact if_neg fun hkk => hk hkk.symm

theorem lookupCell_rowMapCol_same (k : String) (f : Cell → Cell) (r : Row)
    (hf : f Cell.null = Cell.null) :
    lookupCell (rowMapCol k f r) k = f (lookupCell r k) := by
  induction r with
  | nil => simp [rowMapCol, hf]
  | cons p r' ih =>
    simp only [rowMapCol, List.map_cons, lookupCell_cons]
    by_cases hp : p.1 = k
    · rw [if_pos hp]
      simp only [if_pos hp]
    · rw [if_neg hp]
      simp only [if_neg hp]
      exact ih

theorem lookupCell_rowMapCol_ne (k k' : String) (f : Cell → Cell) (r : Row)
    (hk : k' ≠ k) : lookupCell (rowMapCol k f r) k' = lookupCell r k' := by
  induction r with
  | nil => simp [rowMapCol]
  | cons p r' ih =>
    simp only [rowMapCol, List.map_cons, lookupCell_cons]
    by_cases hp : p.1 = k
    · rw [if_pos hp]
      have h2 : ¬ (p.1 = k') := by
        rw [hp]; exact fun h => hk h.symm
      rw [if_neg h2, if_neg h2]
      exact ih
    · rw [if_neg hp]
      by_cases hq : p.1 = k'
      · rw [if_pos hq, if_pos hq]
      · rw [if_neg hq, if_neg hq]
        exact ih

theorem lookupCell_rowDropCols (names : List String) (r : Row) (k : String)
    (hk : k ∉ names) :
    lookupCell (rowDropCols names r) k = lookupCell r k := by
  induction r with
  | nil => simp [rowDropCols]
  | cons p r' ih =>
    rw [rowDropCols, List.filter_cons]
    by_cases hp : p.1 ∈ names
    · have hd : ¬ ((decide (p.1 ∉ names)) = true) := by simp [hp]
      have hne : ¬ (p.1 = k) := fun h => hk (h ▸ hp)
      rw [if_neg hd]
      conv_rhs => rw [lookupCell_cons, if_neg hne]
      exact ih
    · have hd : (decide (p.1 ∉ names)) = true := by simp [hp]
      rw [if_pos hd]
      simp only [lookupCell_cons]
      by_cases hq : p.1 = k
      · rw [if_pos hq, if_pos hq]
      · rw [if_neg hq, if_neg hq]
        exact ih

/-! ### Substring search

Python's `x in s` on strings is substring containment; `str.replace` and
`str.endswith` are also needed.  All of it is modelled executably on
`List Char`. -/

/-- Substring test: does `t` occur as a contiguous segment of `l`?
Models Python's `t in l` for strings. -/
def infixOf (t : List Char) : List Char → Bool
  | [] => t.isEmpty
  | c :: l => t.isPrefixOf (c :: l) || infixOf t l

theorem isPrefixOf_iff_exists :
    ∀ (l₁ l₂ : List Char), l₁.isPrefixOf l₂ = true ↔ ∃ t, l₁ ++ t = l₂
  | [], l₂ => by simp [List.isPrefixOf]
  | a :: as, [] => by simp [List.isPrefixOf]
  | a :: as, b :: bs => by
    simp only [List.isPrefixOf, Bool.and_eq_true, beq_iff_eq,
      isPrefixOf_iff_exists as bs, List.cons_append, List.cons.injEq]
    constructor
    · rintro ⟨hab, t, ht⟩
      exact ⟨t, hab, ht⟩
    · rintro ⟨t, hab, ht⟩
      exact ⟨hab, t, ht⟩

theorem infixOf_iff (t : List Char) :
    ∀ (l : List Char), infixOf t l = true ↔ ∃ u v, u ++ t ++ v = l
  | [] => by
    simp only [infixOf, List.isEmpty_iff]
    constructor
    · rintro rfl
      exact ⟨[], [], rfl⟩
    · rintro ⟨u, v, h⟩
      rcases List.append_eq_nil.1 h with ⟨h1, h2⟩
      exact (List.append_eq_nil.1 h1).2
  | c :: l => by
    simp only [infixOf, Bool.or_eq_true, isPrefixOf_iff_exists,
      infixOf_iff t l]
    constructor
    · rintro (⟨v, hv⟩ | ⟨u, v, huv⟩)
      · exact ⟨[], v, by simpa using hv⟩
      · exact ⟨c :: u, v, by simp [huv]⟩
    · rintro ⟨u, v, huv⟩
      cases u with
      | nil => exact Or.inl ⟨v, by simpa using huv⟩
      | cons c' u' =>
        have h2 : u' ++ t ++ v = l := by
          simpa using congrArg List.tail huv
        exact Or.inr ⟨u', v, h2⟩

/-- Any occurrence of `t` inside `a ++ b` lies in `a`, lies in `b`, or
straddles the boundary, splitting `t` into a nonempty suffix-part of `a`
and a nonempty prefix-part of `b`. -/
theorem occurrence_split (t a b s1 s2 : List Char)
    (h : s1 ++ t ++ s2 = a ++ b) :
    (∃ u v, u ++ t ++ v = a) ∨ (∃ u v, u ++ t ++ v = b) ∨
    (∃ t1 t2 u v, t = t1 ++ t2 ∧ t1 ≠ [] ∧ t2 ≠ [] ∧
      u ++ t1 = a ∧ t2 ++ v = b) := by
  rw [List.append_assoc] at h
  rcases List.append_eq_append_iff.1 h with ⟨x, hx1, hx2⟩ | ⟨x, hx1, hx2⟩
  · -- a = s1 ++ x and t ++ s2 = x ++ b
    rcases List.append_eq_append_iff.1 hx2 with ⟨y, hy1, hy2⟩ | ⟨y, hy1, hy2⟩
    · -- x = t ++ y: the occurrence lies inside a
      exact Or.inl ⟨s1, y, by rw [hx1, hy1, List.append_assoc]⟩
    · -- t = x ++ y and b = y ++ s2
      cases hx : x with
      | nil =>
        -- t starts exactly at the boundary: occurrence inside b
        subst hx
        simp only [List.nil_append] at hy1
        exact Or.inr (Or.inl ⟨[], s2, by simp [hy1, hy2]⟩)
      | cons c x' =>
        cases hy : y with
        | nil =>
          -- t ends exactly at the boundary: occurrence inside a
          subst hy
          simp only [List.append_nil] at hy1
          exact Or.inl ⟨s1, [], by simp [hx1, ← hy1]⟩
        | cons d y' =>
          refine Or.inr (Or.inr ⟨x, y, s1, s2, hy1, ?_, ?_, hx1.symm, hy2.symm⟩)
          · rw [hx]; simp
          · rw [hy]; simp
  · -- s1 = a ++ x and b = x ++ (t ++ s2): occurrence inside b
    exact Or.inr (Or.inl ⟨x, s2, by rw [hx2, List.append_assoc]⟩)

theorem infixOf_append_split (t a b : List Char)
    (h : infixOf t (a ++ b) = true) :
    infixOf t a = true ∨ infixOf t b = true ∨
    (∃ t1 t2 u v, t = t1 ++ t2 ∧ t1 ≠ [] ∧ t2 ≠ [] ∧
      u ++ t1 = a ∧ t2 ++ v = b) := by
  rcases (infixOf_iff t (a ++ b)).1 h with ⟨u, v, huv⟩
  rcases occurrence_split t a b u v huv with h1 | h1 | h1
  · exact Or.inl ((infixOf_iff t a).2 (by rcases h1 with ⟨x, y, hx⟩; exact ⟨x, y, hx⟩))
  · exact Or.inr (Or.inl ((infixOf_iff t b).2 (by rcases h1 with ⟨x, y, hx⟩; exact ⟨x, y, hx⟩)))
  · exact Or.inr (Or.inr h1)

theorem infixOf_mem_of_mem (t l : List Char) (h : infixOf t l = true)
    (c : Char) (hc : c ∈ t) : c ∈ l := by
  rcases (infixOf_iff t l).1 h with ⟨u, v, huv⟩
  rw [← huv]
  simp [hc]

theorem infixOf_append_left (t a b : List Char) (h : infixOf t a = true) :
    infixOf t (a ++ b) = true := by
  rcases (infixOf_iff t a).1 h with ⟨u, v, huv⟩
  exact (infixOf_iff t (a ++ b)).2 ⟨u, v ++ b, by rw [← huv]; simp⟩

theorem infixOf_append_right (t a b : List Char) (h : infixOf t b = true) :
    infixOf t (a ++ b) = true := by
  rcases (infixOf_iff t b).1 h with ⟨u, v, huv⟩
  exact (infixOf_iff t (a ++ b)).2 ⟨a ++ u, v, by rw [← huv]; simp⟩

/-- Join chunks with a separator (model of how `numpy` renders the value
array of a row: space-separated representations). -/
def joinSep (sep : List Char) : List (List Char) → List Char
  | [] => []
  | [x] => x
  | x :: y :: xs => x ++ sep ++ joinSep sep (y :: xs)

/-- A pattern that avoids the separator characters and does not occur in
any chunk does not occur in the joined list. -/
theorem infixOf_joinSep (t sep : List Char) (ht : t ≠ []) (hsepne : sep ≠ [])
    (hsep : ∀ c ∈ sep, c ∉ t) :
    ∀ (xs : List (List Char)), (∀ x ∈ xs, infixOf t x = false) →
      infixOf t (joinSep sep xs) = false
  | [], _ => by simp [joinSep, infixOf, List.isEmpty_iff, ht]
  | [x], hxs => by simpa [joinSep] using hxs x (by simp)
  | x :: y :: xs, hxs => by
    rw [joinSep]
    by_contra hcon
    have h : infixOf t (x ++ (sep ++ joinSep sep (y :: xs))) = true := by
      revert hcon
      rw [List.append_assoc]
      cases infixOf t (x ++ (sep ++ joinSep sep (y :: xs))) <;> simp
    have hx : infixOf t x = false := hxs x (by simp)
    have hrest : infixOf t (joinSep sep (y :: xs)) = false :=
      infixOf_joinSep t sep ht hsepne hsep (y :: xs)
        (fun z hz => hxs z (List.mem_cons_of_mem x hz))
    rcases infixOf_append_split t x _ h with h1 | h1 | h1
    · rw [hx] at h1; exact Bool.false_ne_true h1
    · -- occurrence inside `sep ++ rest`
      rcases infixOf_append_split t sep _ h1 with h2 | h2 | h2
      · rcases (infixOf_iff t sep).1 h2 with ⟨u, v, huv⟩
        rcases t with _ | ⟨c, t'⟩
        · exact ht rfl
        · exact hsep c (by rw [← huv]; simp) (by simp)
      · rw [hrest] at h2; exact Bool.false_ne_true h2
      · rcases h2 with ⟨t1, t2, u, v, _, ht1, _, hu, _⟩
        rcases t1 with _ | ⟨c, t1'⟩
        · exact ht1 rfl
        · refine hsep c ?_ ?_
          · rw [← hu]; simp
          · simp [*]
    · rcases h1 with ⟨t1, t2, u, v, hteq, _, ht2, _, hv⟩
      rcases t2 with _ | ⟨c, t2'⟩
      · exact ht2 rfl
      · have hc : c ∈ sep := by
          have hh := congrArg (fun l => l.head?) hv
          cases sep with
          | nil => exact absurd rfl hsepne
          | cons s0 s' =>
            simp only [List.cons_append, List.head?_cons] at hh
            have : c = s0 := by simpa using hh
            rw [this]; simp
        exact hsep c hc (by simp [hteq])

/-- One step bound for `replaceAllFuel`: every call consumes at least one
character, so `l.length` steps suffice. -/
def replaceAllFuel (old new : List Char) : Nat → List Char → List Char
  | 0, l => l
  | _ + 1, [] => []
  | n + 1, c :: rest =>
    if old ≠ [] ∧ old.isPrefixOf (c :: rest) = true then
      new ++ replaceAllFuel old new n ((c :: rest).drop old.length)
    else
      c :: replaceAllFuel old new n rest

/-- Python `s.replace(old, new)`: replace every (non-overlapping,
left-to-right) occurrence of `old` by `new`. -/
def pyReplace (s old new : String) : String :=
  String.mk (replaceAllFuel old.data new.data s.data.length s.data)

/-- Python `s.endswith(pat)`. -/
def strEndsWith (s pat : String) : Bool :=
  pat.data.isSuffixOf s.data

/-- Python `pat in s` (substring containment). -/
def hasSub (s pat : String) : Bool :=
  infixOf pat.data s.data

/-! ### The metadata mapping

`Dataset.metadata` is a JSON dictionary: category name to a payload whose
`"value"` field lists code descriptors `{Identifier, Title, Unit?}`.
A Python `dict` iterates in insertion order, so it is modelled as an
association list. -/

/-- One code descriptor of a metadata `...Codes` category. -/
structure CodeValue where
  identifier : String
  title : String
  unit : Option String
deriving DecidableEq, Repr

/-- The metadata mapping: category name to list of code descriptors. -/
abbrev Metadata := List (String × List CodeValue)

/-! ### Stage 1: drop housekeeping columns

`df.drop(columns=["Id", "ValueAttribute"], errors="ignore")`. -/

/-- Drop the named columns from a table; missing names are ignored
(`errors="ignore"`). -/
def dropCols (names : List String) (t : Table) : Table :=
  { cols := t.cols.filter (fun c => decide (c ∉ names)),
    rows := t.rows.map (rowDropCols names) }

/-- `Dataset._clean_drop_unecessary_column`. -/
def clean_drop_unecessary_column (t : Table) : Table :=
  dropCols ["Id", "ValueAttribute"] t

/-! ### Stage 2: metadata code substitution

`Dataset._clean_apply_metadata_mappings`:
```
for item in [item for item in self.metadata.keys() if item.endswith("Codes")]:
    if "Perioden" in item:
        continue
    col = item.replace("Codes", "")
    for value in self.metadata[item]["value"]:
        old_value = value["Identifier"]
        new_value = value["Title"]
        if "Unit" in value:
            new_value += f" ({value['Unit']})"
        df[col] = df[col].replace(old_value, new_value)
```
`df[col]` on a missing column raises `KeyError`; `Series.replace` is
exact-value (not substring) replacement. -/

/-- The replacement value of one descriptor: the title, with ` (unit)`
appended when a unit is present. -/
def newValueOf (v : CodeValue) : String :=
  match v.unit with
  | some u => v.title ++ " (" ++ u ++ ")"
  | none => v.title

/-- Exact-value replacement of one descriptor on one cell
(`Series.replace(old_value, new_value)` at cell level). -/
def substCell (v : CodeValue) (c : Cell) : Cell :=
  if c = Cell.str v.identifier then Cell.str (newValueOf v) else c

/-- Apply a function to every entry of one column of the table. -/
def mapCol (k : String) (f : Cell → Cell) (t : Table) : Table :=
  { cols := t.cols, rows := t.rows.map (rowMapCol k f) }

/-- The target column of a category: `item.replace("Codes", "")`, which
removes every occurrence of `"Codes"`, not only a trailing one. -/
def targetCol (item : String) : String :=
  pyReplace item "Codes" ""

/-- The inner descriptor loop of one category: each descriptor reads
`df[col]` (raising `KeyError` when the column is absent) and replaces
cells exactly equal to its identifier. -/
def applyCategory (col : String) (vals : List CodeValue) (t : Table) :
    Except String Table :=
  match vals with
  | [] => Except.ok t
  | v :: vs =>
    if col ∈ t.cols then
      applyCategory col vs (mapCol col (substCell v) t)
    else
      Except.error ("KeyError: " ++ col)

/-- The outer category loop, already restricted to the categories whose
name ends with `"Codes"`; a category whose name contains `"Perioden"`
is skipped. -/
def applyCats : List (String × List CodeValue) → Table → Except String Table
  | [], t => Except.ok t
  | p :: ps, t =>
    if hasSub p.1 "Perioden" then applyCats ps t
    else
      match applyCategory (targetCol p.1) p.2 t with
      | Except.ok t' => applyCats ps t'
      | Except.error e => Except.error e

/-- `Dataset._clean_apply_metadata_mappings`. -/
def clean_apply_metadata_mappings (meta : Metadata) (t : Table) :
    Except String Table :=
  applyCats (meta.filter (fun p => strEndsWith p.1 "Codes")) t

/-- Modelled from the spec, for the refinement statement of the
substitution stage: the cell-level substitution the claim describes —
for every category whose name ends with the code suffix and does not
denote the temporal dimension, if its target column is this one, each
descriptor in order replaces a cell exactly equal to its identifier with
its title (with the unit appended in parentheses when present). -/
def specSubstCell : List (String × List CodeValue) → String → Cell → Cell
  | [], _, c => c
  | p :: ps, col, c =>
    if hasSub p.1 "Perioden" then specSubstCell ps col c
    else if targetCol p.1 = col then
      specSubstCell ps col (p.2.foldl (fun c v => substCell v c) c)
    else specSubstCell ps col c

/-- The cells of one column, in row order. -/
def colCells (t : Table) (col : String) : List Cell :=
  t.rows.map (fun r => lookupCell r col)

/-! ### Stage 3: temporal conversion

`Dataset._cbs_add_date_column`:
```
regex = r"(\d{4})([A-Z]{2})(\d{2})"
data[["Year", "Frequency", "Count"]] = data[period_name].str.extract(regex)
freq_dict = {"JJ": "Y", "KW": "Q", "MM": "M"}
data = data.replace({"Frequency": freq_dict})
def convert_cbs_period(row): ...
data["Date"] = data.apply(convert_cbs_period, axis=1)
data = data.drop(columns=["Year", "Count", "Perioden"])
```
Note the code drops `Year`, `Count` and `Perioden` but keeps the scratch
column `Frequency`.  `dt.datetime` raises `ValueError` on out-of-range
components (year outside 1..9999, month outside 1..12). -/

/-- Match `(\d{4})([A-Z]{2})(\d{2})` at the start of the list; the
quantifiers have fixed width, so this is 4 digits, 2 uppercase ASCII
letters, 2 digits, with arbitrary trailing characters. -/
def matchPeriod (l : List Char) : Option (List Char × List Char × List Char) :=
  match l with
  | y1 :: y2 :: y3 :: y4 :: f1 :: f2 :: c1 :: c2 :: _ =>
    if y1.isDigit && y2.isDigit && y3.isDigit && y4.isDigit &&
        f1.isUpper && f2.isUpper && c1.isDigit && c2.isDigit then
      some ([y1, y2, y3, y4], [f1, f2], [c1, c2])
    else none
  | _ => none

/-- `re.search` semantics of `Series.str.extract`: the groups of the
leftmost match, or no match at all. -/
def searchPeriod : List Char → Option (List Char × List Char × List Char)
  | [] => none
  | c :: l =>
    match matchPeriod (c :: l) with
    | some g => some g
    | none => searchPeriod l

/-- Value of a digit string (`int()` of a string of decimal digits). -/
def digitsToNat (l : List Char) : Nat :=
  l.foldl (fun n c => n * 10 + (c.toNat - 48)) 0

/-- Python `int(x)` where `x` is a cell: parses a digit string, passes an
int through, and raises `ValueError`/`TypeError` otherwise (`int(nan)`
raises). -/
def pyIntCell (c : Cell) : Except String Int :=
  match c with
  | Cell.str s =>
    if s.data ≠ [] ∧ s.data.all Char.isDigit then
      Except.ok ((digitsToNat s.data : Nat) : Int)
    else Except.error ("ValueError: invalid literal for int(): " ++ s)
  | Cell.int n => Except.ok n
  | Cell.null => Except.error "ValueError: cannot convert float NaN to integer"
  | Cell.date _ _ _ => Except.error "TypeError: not an integer"

/-- `dt.datetime(year, month, day)`: validates the ranges Python's
`datetime` enforces (callers of this model only ever pass day 1). -/
def pyDatetime (y m d : Int) : Except String Cell :=
  if y < 1 ∨ 9999 < y then
    Except.error "ValueError: year is out of range"
  else if m < 1 ∨ 12 < m then
    Except.error "ValueError: month must be in 1..12"
  else if d < 1 ∨ 31 < d then
    Except.error "ValueError: day is out of range for month"
  else
    Except.ok (Cell.date y.toNat m.toNat d.toNat)

/-- The `freq_dict` replacement `{"JJ": "Y", "KW": "Q", "MM": "M"}`,
applied by `data.replace({"Frequency": freq_dict})` to each cell of the
`Frequency` column (exact-value replacement). -/
def mapFreqCell (c : Cell) : Cell :=
  if c = Cell.str "JJ" then Cell.str "Y"
  else if c = Cell.str "KW" then Cell.str "Q"
  else if c = Cell.str "MM" then Cell.str "M"
  else c

/-- The regex-match groups of one period cell: a non-string cell never
matches (`Series.str` yields `NaN` on non-strings of an object column). -/
def decodePeriodGroups (c : Cell) : Option (List Char × List Char × List Char) :=
  match c with
  | Cell.str s => searchPeriod s.data
  | _ => none

/-- Row-level effect of
`data[["Year", "Frequency", "Count"]] = data[period_name].str.extract(regex)`:
the three scratch columns receive the groups of the leftmost regex match
of the period cell, or `NaN` (here: null) when the cell is not a string or
does not match. -/
def extractRow (periodName : String) (r : Row) : Row :=
  match decodePeriodGroups (lookupCell r periodName) with
  | some (ys, fs, cs) =>
    rowSet (rowSet (rowSet r "Year" (Cell.str (String.mk ys)))
      "Frequency" (Cell.str (String.mk fs))) "Count" (Cell.str (String.mk cs))
  | none =>
    rowSet (rowSet (rowSet r "Year" Cell.null) "Frequency" Cell.null)
      "Count" Cell.null

/-- `convert_cbs_period(row)` from `_cbs_add_date_column`. -/
def convert_cbs_period (r : Row) : Except String Cell :=
  if lookupCell r "Frequency" = Cell.str "Y" then
    match pyIntCell (lookupCell r "Year") with
    | Except.ok y => pyDatetime y 1 1
    | Except.error e => Except.error e
  else if lookupCell r "Frequency" = Cell.str "M" then
    match pyIntCell (lookupCell r "Year"), pyIntCell (lookupCell r "Count") with
    | Except.ok y, Except.ok c => pyDatetime y c 1
    | Except.error e, _ => Except.error e
    | _, Except.error e => Except.error e
  else if lookupCell r "Frequency" = Cell.str "Q" then
    match pyIntCell (lookupCell r "Year"), pyIntCell (lookupCell r "Count") with
    | Except.ok y, Except.ok c => pyDatetime y (c * 3 - 2) 1
    | Except.error e, _ => Except.error e
    | _, Except.error e => Except.error e
  else
    Except.ok Cell.null

/-- The date computed for one row by stage 3: scratch extraction, the
frequency-dictionary replacement, then `convert_cbs_period`. -/
def rowDateResult (periodName : String) (r : Row) : Except String Cell :=
  convert_cbs_period (rowMapCol "Frequency" mapFreqCell (extractRow periodName r))

/-- The full per-row transformation of stage 3: add scratch columns, map
the frequency marker, compute `Date` (possibly raising), then drop
`Year`, `Count` and the period column — but not `Frequency`. -/
def cbsDateRow (periodName : String) (r : Row) : Except String Row :=
  match rowDateResult periodName r with
  | Except.ok d =>
    Except.ok (rowDropCols ["Year", "Count", periodName]
      (rowSet (rowMapCol "Frequency" mapFreqCell (extractRow periodName r))
        "Date" d))
  | Except.error e => Except.error e

/-- `Dataset._cbs_add_date_column`. -/
def cbs_add_date_column (t : Table) (periodName : String := "Perioden") :
    Except String Table :=
  match t.rows.mapM (cbsDateRow periodName) with
  | Except.ok rows' =>
    Except.ok
      { cols := (addColName (addColName (addColName
          (addColName t.cols "Year") "Frequency") "Count") "Date").filter
          (fun c => decide (c ∉ ["Year", "Count", periodName])),
        rows := rows' }
  | Except.error e => Except.error e

/-- `Dataset._clean_handle_timestamp_column`. -/
def clean_handle_timestamp_column (t : Table) : Except String Table :=
  if "Perioden" ∈ t.cols then cbs_add_date_column t else Except.ok t

/-- Frequency-dictionary lookup plus anchor-date computation on the
groups of a match (or on no match). -/
def decodeFromGroups : Option (List Char × List Char × List Char) →
    Except String Cell
  | none => Except.ok Cell.null
  | some (ys, fs, cs) =>
    if mapFreqCell (Cell.str (String.mk fs)) = Cell.str "Y" then
      match pyIntCell (Cell.str (String.mk ys)) with
      | Except.ok y => pyDatetime y 1 1
      | Except.error e => Except.error e
    else if mapFreqCell (Cell.str (String.mk fs)) = Cell.str "M" then
      match pyIntCell (Cell.str (String.mk ys)),
            pyIntCell (Cell.str (String.mk cs)) with
      | Except.ok y, Except.ok c => pyDatetime y c 1
      | Except.error e, _ => Except.error e
      | _, Except.error e => Except.error e
    else if mapFreqCell (Cell.str (String.mk fs)) = Cell.str "Q" then
      match pyIntCell (Cell.str (String.mk ys)),
            pyIntCell (Cell.str (String.mk cs)) with
      | Except.ok y, Except.ok c => pyDatetime y (c * 3 - 2) 1
      | Except.error e, _ => Except.error e
      | _, Except.error e => Except.error e
    else
      Except.ok Cell.null

/-- The decoding of one period cell, as a function of the cell alone:
leftmost regex match, frequency-dictionary lookup, anchor-date
computation.  `rowDateResult` reduces to this. -/
def decodePeriodCell (c : Cell) : Except String Cell :=
  decodeFromGroups (decodePeriodGroups c)

/-! ### Stage 4: pivot

`Dataset._clean_make_data_pivot`:
```
df = df.pivot(
    index=[col for col in df.columns if not col in ["Measure", "Value"]],
    columns=["Measure"],
    values=["Value"],
).reset_index()
```
`DataFrame.pivot` raises `KeyError` when `Measure` or `Value` is missing
and `ValueError("Index contains duplicate entries, cannot reshape")` when
two rows share the same index-key and `Measure` value; missing
key/measure combinations are filled with `NaN`.  After `reset_index` the
column labels are pairs: `(name, "")` for an index column and
`("Value", measure)` for a measure column. -/

/-- Does the list contain a duplicate element? -/
def hasDups : List (List Cell × Cell) → Bool
  | [] => false
  | x :: xs => xs.contains x || hasDups xs

/-- Unique elements in order of first appearance. -/
def dedupFirst {α : Type} [DecidableEq α] (seen : List α) :
    List α → List α
  | [] => []
  | x :: xs =>
    if x ∈ seen then dedupFirst seen xs
    else x :: dedupFirst (x :: seen) xs

/-- A pivoted frame: its column labels are pairs — `(name, Cell.str "")`
for a carried index column, `("Value", measure)` for a measure column. -/
structure PTable where
  cols : List (String × Cell)
  rows : List (List ((String × Cell) × Cell))
deriving DecidableEq, Repr

/-- The index-key projection of a row: its cells at the index columns. -/
def keyProj (idxCols : List String) (r : Row) : List Cell :=
  idxCols.map (lookupCell r)

/-- The pivot's index columns: every column except `Measure` and
`Value`. -/
def pivotIndexCols (t : Table) : List String :=
  t.cols.filter (fun c => decide (c ∉ ["Measure", "Value"]))

/-- The success case of the pivot: one row per distinct index key (order
of first appearance), one column per distinct `Measure` value, holding
the matching `Value` cell (`NaN` when the combination is absent). -/
def pivotTable (t : Table) : PTable :=
  let idxCols := pivotIndexCols t
  let keys := dedupFirst [] (t.rows.map (keyProj idxCols))
  let measures := dedupFirst [] (t.rows.map (fun r => lookupCell r "Measure"))
  { cols := idxCols.map (fun c => (c, Cell.str "")) ++
      measures.map (fun m => ("Value", m)),
    rows := keys.map (fun k =>
      (idxCols.zip k).map (fun p => ((p.1, Cell.str ""), p.2)) ++
      measures.map (fun m => (("Value", m),
        match t.rows.find? (fun r =>
            keyProj idxCols r == k && lookupCell r "Measure" == m) with
        | some r => lookupCell r "Value"
        | none => Cell.null))) }

/-- `Dataset._clean_make_data_pivot`. -/
def clean_make_data_pivot (t : Table) : Except String PTable :=
  if "Measure" ∈ t.cols ∧ "Value" ∈ t.cols then
    if hasDups (t.rows.map (fun r =>
        (keyProj (pivotIndexCols t) r, lookupCell r "Measure"))) then
      Except.error "Index contains duplicate entries, cannot reshape"
    else
      Except.ok (pivotTable t)
  else Except.error "KeyError: Measure and Value must be columns"

/-! ### Stage 5: flatten the column labels

`Dataset._clean_rename_column`: `col[0]` when `col[1]` is falsy, else
`col[1]`. -/

/-- Python truth-value test of a cell: `None`, `""` and `0` are falsy. -/
def pyFalsy (c : Cell) : Bool :=
  c = Cell.null || c = Cell.str "" || c = Cell.int 0

/-- The string form a cell contributes as a flat column name (measure
values are strings in CBS data; other cells would become non-string
labels in Python, rendered here by their string form). -/
def cellName (c : Cell) : String :=
  match c with
  | Cell.str s => s
  | Cell.int n => toString n
  | Cell.null => "nan"
  | Cell.date y m d => toString y ++ "-" ++ toString m ++ "-" ++ toString d

/-- Flatten one compound column label. -/
def flattenLabel (p : String × Cell) : String :=
  if pyFalsy p.2 then p.1 else cellName p.2

/-- `Dataset._clean_rename_column`. -/
def clean_rename_column (pt : PTable) : Table :=
  { cols := pt.cols.map flattenLabel,
    rows := pt.rows.map (fun r => r.map (fun p => (flattenLabel p.1, p.2))) }

/-! ### Stage 6: remove summation rows

`Dataset._clean_remove_summation_value`:
```
df = df[~df.apply(lambda row: "Totaal" in str(row.values), axis=1)]
```
`str(row.values)` is the numpy rendering of the row's value array:
`[repr_1 repr_2 ...]`, with strings in quotes, and the test is substring
containment on that rendering. -/

/-- The numpy rendering of one cell inside `str(row.values)`: strings
are quoted, `None` prints as `None`, timestamps as
`Timestamp('Y-M-D 00:00:00')`. -/
def cellStr (c : Cell) : String :=
  match c with
  | Cell.str s => "'" ++ s ++ "'"
  | Cell.int n => toString n
  | Cell.null => "None"
  | Cell.date y m d =>
    "Timestamp('" ++ toString y ++ "-" ++ toString m ++ "-" ++ toString d ++
      " 00:00:00')"

/-- `str(row.values)`: bracketed, space-separated cell renderings. -/
def rowValuesStr (r : Row) : List Char :=
  ['['] ++ joinSep [' '] (r.map (fun p => (cellStr p.2).data)) ++ [']']

/-- The row predicate of stage 6. -/
def rowHasTotaal (r : Row) : Bool :=
  infixOf "Totaal".data (rowValuesStr r)

/-- `Dataset._clean_remove_summation_value`. -/
def clean_remove_summation_value (t : Table) : Table :=
  { cols := t.cols, rows := t.rows.filter (fun r => ! rowHasTotaal r) }

end CbsPandas

deriving instance DecidableEq for Except

namespace CbsPandas

/-! ### The pipeline -/

/-- `Dataset._clean_df`: the six stages in order. -/
def clean_df (meta : Metadata) (t : Table) : Except String Table := do
  let t1 := clean_drop_unecessary_column t
  let t2 ← clean_apply_metadata_mappings meta t1
  let t3 ← clean_handle_timestamp_column t2
  let pt ← clean_make_data_pivot t3
  let t5 := clean_rename_column pt
  pure (clean_remove_summation_value t5)

/-! ## Claim C1: the end-to-end scenario -/

/-- The metadata mapping of the end-to-end scenario:
`RegionCodes = [{Identifier: "NL", Title: "Netherlands"}]`. -/
def metaC1 : Metadata := [("RegionCodes", [⟨"NL", "Netherlands", none⟩])]

/-- The raw table of the end-to-end scenario. -/
def tblC1 : Table :=
  { cols := ["Region", "Perioden", "Measure", "Value"],
    rows := [
      [("Region", Cell.str "NL"), ("Perioden", Cell.str "2020JJ00"),
       ("Measure", Cell.str "Population"), ("Value", Cell.int 100)],
      [("Region", Cell.str "NL"), ("Perioden", Cell.str "2020JJ00"),
       ("Measure", Cell.str "Births"), ("Value", Cell.int 5)]] }

/-- C1, counterexample: on the end-to-end scenario's input the pipeline
succeeds but returns five columns, not the claimed four — the scratch
`Frequency` column survives, because `_cbs_add_date_column` drops only
`Year`, `Count` and `Perioden`. -/
theorem C1_counterexample :
    ∃ T, clean_df metaC1 tblC1 = Except.ok T ∧ "Frequency" ∈ T.cols ∧
      ¬ (T.cols.length = 4) := by
  refine ⟨_, rfl, ?_, ?_⟩ <;> decide

/-- C1, amended: the cleaned table has one row with
`Region = "Netherlands"`, `Date = 2020-01-01`, `Population = 100`,
`Births = 5`, plus the retained scratch column `Frequency = "Y"` (five
columns in total). -/
theorem C1_amended_clean_df :
    ∃ T, clean_df metaC1 tblC1 = Except.ok T ∧
      List.Perm T.cols ["Region", "Frequency", "Date", "Population", "Births"] ∧
      T.rows.length = 1 ∧
      ∀ r ∈ T.rows,
        lookupCell r "Region" = Cell.str "Netherlands" ∧
        lookupCell r "Date" = Cell.date 2020 1 1 ∧
        lookupCell r "Population" = Cell.int 100 ∧
        lookupCell r "Births" = Cell.int 5 ∧
        lookupCell r "Frequency" = Cell.str "Y" := by
  refine ⟨_, rfl, ?_, ?_, ?_⟩ <;> decide

/-! ## Claim C2: duplicate index-key plus Measure aborts the pivot -/

theorem hasDups_eq_false_iff_nodup (l : List (List Cell × Cell)) :
    hasDups l = false ↔ l.Nodup := by
  induction l with
  | nil => simp [hasDups]
  | cons x xs ih =>
    simp only [hasDups, Bool.or_eq_false_iff, List.nodup_cons, ih]
    constructor
    · rintro ⟨h1, h2⟩
      refine ⟨?_, h2⟩
      intro hmem
      have : xs.contains x = true := by
        simpa [List.contains, List.elem_iff] using hmem
      rw [this] at h1
      exact absurd h1 (by simp)
    · rintro ⟨h1, h2⟩
      refine ⟨?_, h2⟩
      by_contra hc
      have : xs.contains x = true := by
        revert hc; cases xs.contains x <;> simp
      exact h1 (by simpa [List.contains, List.elem_iff] using this)

theorem hasDups_of_getElem (l : List (List Cell × Cell))
    (i j : Nat) (hi : i < l.length) (hj : j < l.length) (hij : i ≠ j)
    (h : l[i] = l[j]) : hasDups l = true := by
  by_contra hcon
  have hf : hasDups l = false := by
    revert hcon; cases hasDups l <;> simp
  have hnd : l.Nodup := (hasDups_eq_false_iff_nodup l).1 hf
  exact hij ((List.Nodup.getElem_inj_iff hnd).1 h)

/-- The two-rows table of the duplicate scenario: `Region: "NL"` with
`Measure: "Population"` appearing twice, with different values. -/
def dupTbl : Table :=
  { cols := ["Region", "Measure", "Value"],
    rows := [
      [("Region", Cell.str "NL"), ("Measure", Cell.str "Population"),
       ("Value", Cell.int 1)],
      [("Region", Cell.str "NL"), ("Measure", Cell.str "Population"),
       ("Value", Cell.int 2)]] }

/-- C2, counterexample: the duplicate scenario does abort cleaning with
the pivot's duplicate-entries error, but the error message is the fixed
pandas message — it names neither the offending key value `"NL"` nor the
measure `"Population"`, contrary to the claim. -/
theorem C2_counterexample :
    ∃ e, clean_df [] dupTbl = Except.error e ∧
      hasSub e "NL" = false ∧ hasSub e "Population" = false := by
  refine ⟨_, rfl, ?_, ?_⟩ <;> decide

/-- C2, amended: whenever two rows of the pivoted table share the same
index-key projection and the same `Measure` value, the pivot stage
aborts with the (fixed, key-agnostic) pandas duplicate-entries error
rather than silently aggregating or picking one value. -/
theorem C2_amended_pivot_duplicate (t : Table)
    (hMV : "Measure" ∈ t.cols ∧ "Value" ∈ t.cols)
    (i j : Nat) (hi : i < t.rows.length) (hj : j < t.rows.length)
    (hij : i ≠ j)
    (hkey : keyProj (pivotIndexCols t) (t.rows.get ⟨i, hi⟩) =
      keyProj (pivotIndexCols t) (t.rows.get ⟨j, hj⟩))
    (hmeas : lookupCell (t.rows.get ⟨i, hi⟩) "Measure" =
      lookupCell (t.rows.get ⟨j, hj⟩) "Measure") :
    clean_make_data_pivot t =
      Except.error "Index contains duplicate entries, cannot reshape" := by
  rw [clean_make_data_pivot, if_pos hMV]
  have hdup : hasDups (t.rows.map (fun r =>
      (keyProj (pivotIndexCols t) r, lookupCell r "Measure"))) = true := by
    refine hasDups_of_getElem _ i j (by simpa using hi) (by simpa using hj)
      hij ?_
    rw [List.getElem_map, List.getElem_map]
    simp only [List.get_eq_getElem] at hkey hmeas
    rw [hkey, hmeas]
  rw [hdup]
  simp

/-- C2, witness: the amended theorem applied to the duplicate scenario. -/
theorem C2_witness :
    clean_make_data_pivot dupTbl =
      Except.error "Index contains duplicate entries, cannot reshape" :=
  C2_amended_pivot_duplicate dupTbl (by decide) 0 1 (by decide) (by decide)
    (by decide) (by decide) (by decide)

/-! ## Claims C3 and C7: period-code decoding -/

theorem digit_bounds (c : Char) (h : c.isDigit = true) :
    48 ≤ c.toNat ∧ c.toNat ≤ 57 := by
  unfold Char.isDigit at h
  rw [Bool.and_eq_true] at h
  obtain ⟨h1, h2⟩ := h
  rw [decide_eq_true_eq] at h1 h2
  exact ⟨h1, h2⟩

theorem searchPeriod_matched (y1 y2 y3 y4 f1 f2 c1 c2 : Char) (rest : List Char)
    (h : (y1.isDigit && y2.isDigit && y3.isDigit && y4.isDigit &&
      f1.isUpper && f2.isUpper && c1.isDigit && c2.isDigit) = true) :
    searchPeriod (y1 :: y2 :: y3 :: y4 :: f1 :: f2 :: c1 :: c2 :: rest) =
      some ([y1, y2, y3, y4], [f1, f2], [c1, c2]) := by
  rw [searchPeriod, matchPeriod, if_pos h]

theorem pyIntCell_digits (l : List Char) (hne : l ≠ [])
    (hall : l.all Char.isDigit = true) :
    pyIntCell (Cell.str (String.mk l)) =
      Except.ok ((digitsToNat l : Nat) : Int) := by
  rw [pyIntCell]
  exact if_pos ⟨hne, hall⟩

theorem digitsToNat4_le (y1 y2 y3 y4 : Char)
    (hy1 : y1.isDigit = true) (hy2 : y2.isDigit = true)
    (hy3 : y3.isDigit = true) (hy4 : y4.isDigit = true) :
    digitsToNat [y1, y2, y3, y4] ≤ 9999 := by
  obtain ⟨ha1, hb1⟩ := digit_bounds y1 hy1
  obtain ⟨ha2, hb2⟩ := digit_bounds y2 hy2
  obtain ⟨ha3, hb3⟩ := digit_bounds y3 hy3
  obtain ⟨ha4, hb4⟩ := digit_bounds y4 hy4
  simp only [digitsToNat, List.foldl]
  omega

theorem decode_JJ (y1 y2 y3 y4 c1 c2 : Char)
    (hy1 : y1.isDigit = true) (hy2 : y2.isDigit = true)
    (hy3 : y3.isDigit = true) (hy4 : y4.isDigit = true)
    (hc1 : c1.isDigit = true) (hc2 : c2.isDigit = true)
    (hpos : 1 ≤ digitsToNat [y1, y2, y3, y4]) :
    decodePeriodCell (Cell.str (String.mk [y1, y2, y3, y4, 'J', 'J', c1, c2])) =
      Except.ok (Cell.date (digitsToNat [y1, y2, y3, y4]) 1 1) := by
  have hbound := digitsToNat4_le y1 y2 y3 y4 hy1 hy2 hy3 hy4
  rw [decodePeriodCell, decodePeriodGroups]
  rw [searchPeriod_matched y1 y2 y3 y4 'J' 'J' c1 c2 []
    (by simp [hy1, hy2, hy3, hy4, hc1, hc2])]
  rw [decodeFromGroups]
  rw [if_pos (by rfl)]
  rw [pyIntCell_digits [y1, y2, y3, y4] (by simp) (by simp [hy1, hy2, hy3, hy4])]
  show pyDatetime ((digitsToNat [y1, y2, y3, y4] : Nat) : Int) 1 1 =
    Except.ok (Cell.date (digitsToNat [y1, y2, y3, y4]) 1 1)
  rw [pyDatetime]
  rw [if_neg (by omega), if_neg (by omega), if_neg (by omega)]
  simp [Int.toNat_natCast]

theorem decode_MM (y1 y2 y3 y4 c1 c2 : Char)
    (hy1 : y1.isDigit = true) (hy2 : y2.isDigit = true)
    (hy3 : y3.isDigit = true) (hy4 : y4.isDigit = true)
    (hc1 : c1.isDigit = true) (hc2 : c2.isDigit = true)
    (hpos : 1 ≤ digitsToNat [y1, y2, y3, y4])
    (hclo : 1 ≤ digitsToNat [c1, c2]) (hchi : digitsToNat [c1, c2] ≤ 12) :
    decodePeriodCell (Cell.str (String.mk [y1, y2, y3, y4, 'M', 'M', c1, c2])) =
      Except.ok (Cell.date (digitsToNat [y1, y2, y3, y4])
        (digitsToNat [c1, c2]) 1) := by
  have hbound := digitsToNat4_le y1 y2 y3 y4 hy1 hy2 hy3 hy4
  rw [decodePeriodCell, decodePeriodGroups]
  rw [searchPeriod_matched y1 y2 y3 y4 'M' 'M' c1 c2 []
    (by simp [hy1, hy2, hy3, hy4, hc1, hc2])]
  rw [decodeFromGroups]
  rw [if_neg (by decide), if_pos (by rfl)]
  rw [pyIntCell_digits [y1, y2, y3, y4] (by simp) (by simp [hy1, hy2, hy3, hy4])]
  rw [pyIntCell_digits [c1, c2] (by simp) (by simp [hc1, hc2])]
  show pyDatetime ((digitsToNat [y1, y2, y3, y4] : Nat) : Int)
      ((digitsToNat [c1, c2] : Nat) : Int) 1 =
    Except.ok (Cell.date (digitsToNat [y1, y2, y3, y4]) (digitsToNat [c1, c2]) 1)
  rw [pyDatetime]
  rw [if_neg (by omega), if_neg (by omega), if_neg (by omega)]
  simp [Int.toNat_natCast]

theorem decode_KW (y1 y2 y3 y4 c1 c2 : Char)
    (hy1 : y1.isDigit = true) (hy2 : y2.isDigit = true)
    (hy3 : y3.isDigit = true) (hy4 : y4.isDigit = true)
    (hc1 : c1.isDigit = true) (hc2 : c2.isDigit = true)
    (hpos : 1 ≤ digitsToNat [y1, y2, y3, y4])
    (hclo : 1 ≤ digitsToNat [c1, c2]) (hchi : digitsToNat [c1, c2] ≤ 4) :
    decodePeriodCell (Cell.str (String.mk [y1, y2, y3, y4, 'K', 'W', c1, c2])) =
      Except.ok (Cell.date (digitsToNat [y1, y2, y3, y4])
        (3 * digitsToNat [c1, c2] - 2) 1) := by
  have hbound := digitsToNat4_le y1 y2 y3 y4 hy1 hy2 hy3 hy4
  rw [decodePeriodCell, decodePeriodGroups]
  rw [searchPeriod_matched y1 y2 y3 y4 'K' 'W' c1 c2 []
    (by simp [hy1, hy2, hy3, hy4, hc1, hc2])]
  rw [decodeFromGroups]
  rw [if_neg (by decide), if_neg (by decide), if_pos (by rfl)]
  rw [pyIntCell_digits [y1, y2, y3, y4] (by simp) (by simp [hy1, hy2, hy3, hy4])]
  rw [pyIntCell_digits [c1, c2] (by simp) (by simp [hc1, hc2])]
  show pyDatetime ((digitsToNat [y1, y2, y3, y4] : Nat) : Int)
      (((digitsToNat [c1, c2] : Nat) : Int) * 3 - 2) 1 =
    Except.ok (Cell.date (digitsToNat [y1, y2, y3, y4])
      (3 * digitsToNat [c1, c2] - 2) 1)
  rw [pyDatetime]
  rw [if_neg (by omega), if_neg (by omega), if_neg (by omega)]
  simp only [Except.ok.injEq, Cell.date.injEq]
  refine ⟨by omega, by omega, by omega⟩

/-- C3, counterexample: `"2020MM13"` matches the regex, but the
conversion raises `ValueError` (from `dt.datetime(2020, 13, 1)`) instead
of decoding it to an anchor date; at pipeline level, stage 3 aborts on a
table holding that period code. -/
theorem C3_counterexample :
    decodePeriodCell (Cell.str "2020MM13") =
      Except.error "ValueError: month must be in 1..12" ∧
    cbs_add_date_column
        { cols := ["Perioden"],
          rows := [[("Perioden", Cell.str "2020MM13")]] } =
      Except.error "ValueError: month must be in 1..12" := by
  constructor <;> rfl

/-- C3, amended: for a period code of regex shape whose components are in
range — any count for the yearly marker `JJ`, month count 1..12 for `MM`,
quarter count 1..4 for `KW`, with a positive year — the conversion
deterministically yields the anchor date: `JJ` gives January 1 of the
year, `MM` the first of month `count`, `KW` the first of month
`count*3 - 2`; out-of-range counts instead raise `ValueError`. -/
theorem C3_amended_decode (y1 y2 y3 y4 c1 c2 : Char)
    (hy1 : y1.isDigit = true) (hy2 : y2.isDigit = true)
    (hy3 : y3.isDigit = true) (hy4 : y4.isDigit = true)
    (hc1 : c1.isDigit = true) (hc2 : c2.isDigit = true)
    (hpos : 1 ≤ digitsToNat [y1, y2, y3, y4]) :
    (decodePeriodCell
        (Cell.str (String.mk [y1, y2, y3, y4, 'J', 'J', c1, c2])) =
      Except.ok (Cell.date (digitsToNat [y1, y2, y3, y4]) 1 1)) ∧
    (1 ≤ digitsToNat [c1, c2] → digitsToNat [c1, c2] ≤ 12 →
      decodePeriodCell
          (Cell.str (String.mk [y1, y2, y3, y4, 'M', 'M', c1, c2])) =
        Except.ok (Cell.date (digitsToNat [y1, y2, y3, y4])
          (digitsToNat [c1, c2]) 1)) ∧
    (1 ≤ digitsToNat [c1, c2] → digitsToNat [c1, c2] ≤ 4 →
      decodePeriodCell
          (Cell.str (String.mk [y1, y2, y3, y4, 'K', 'W', c1, c2])) =
        Except.ok (Cell.date (digitsToNat [y1, y2, y3, y4])
          (3 * digitsToNat [c1, c2] - 2) 1)) :=
  ⟨decode_JJ y1 y2 y3 y4 c1 c2 hy1 hy2 hy3 hy4 hc1 hc2 hpos,
   fun h1 h2 => decode_MM y1 y2 y3 y4 c1 c2 hy1 hy2 hy3 hy4 hc1 hc2 hpos h1 h2,
   fun h1 h2 => decode_KW y1 y2 y3 y4 c1 c2 hy1 hy2 hy3 hy4 hc1 hc2 hpos h1 h2⟩

/-- C3, witness: the four examples of the claim, by the amended theorem:
`2020KW01` → 2020-01-01, `2020KW02` → 2020-04-01, `2020MM07` →
2020-07-01, `2020JJ00` → 2020-01-01. -/
theorem C3_witness :
    decodePeriodCell (Cell.str "2020KW01") = Except.ok (Cell.date 2020 1 1) ∧
    decodePeriodCell (Cell.str "2020KW02") = Except.ok (Cell.date 2020 4 1) ∧
    decodePeriodCell (Cell.str "2020MM07") = Except.ok (Cell.date 2020 7 1) ∧
    decodePeriodCell (Cell.str "2020JJ00") = Except.ok (Cell.date 2020 1 1) :=
  ⟨(C3_amended_decode '2' '0' '2' '0' '0' '1' (by decide) (by decide)
      (by decide) (by decide) (by decide) (by decide) (by decide)).2.2
      (by decide) (by decide),
   (C3_amended_decode '2' '0' '2' '0' '0' '2' (by decide) (by decide)
      (by decide) (by decide) (by decide) (by decide) (by decide)).2.2
      (by decide) (by decide),
   (C3_amended_decode '2' '0' '2' '0' '0' '7' (by decide) (by decide)
      (by decide) (by decide) (by decide) (by decide) (by decide)).2.1
      (by decide) (by decide),
   (C3_amended_decode '2' '0' '2' '0' '0' '0' (by decide) (by decide)
      (by decide) (by decide) (by decide) (by decide) (by decide)).1⟩

/-- An unrecognized two-letter marker passes through the frequency
dictionary unchanged. -/
theorem mapFreqCell_other (f1 f2 : Char)
    (hnot : ¬ (f1 = 'J' ∧ f2 = 'J') ∧ ¬ (f1 = 'K' ∧ f2 = 'W') ∧
      ¬ (f1 = 'M' ∧ f2 = 'M')) :
    mapFreqCell (Cell.str (String.mk [f1, f2])) =
      Cell.str (String.mk [f1, f2]) := by
  rw [mapFreqCell]
  rw [if_neg (fun h => hnot.1 (by
    rw [show ("JJ" : String) = String.mk ['J', 'J'] from rfl] at h
    injection h with hs
    injection hs with hl
    simp only [List.cons.injEq] at hl
    exact ⟨hl.1, hl.2.1⟩))]
  rw [if_neg (fun h => hnot.2.1 (by
    rw [show ("KW" : String) = String.mk ['K', 'W'] from rfl] at h
    injection h with hs
    injection hs with hl
    simp only [List.cons.injEq] at hl
    exact ⟨hl.1, hl.2.1⟩))]
  rw [if_neg (fun h => hnot.2.2 (by
    rw [show ("MM" : String) = String.mk ['M', 'M'] from rfl] at h
    injection h with hs
    injection hs with hl
    simp only [List.cons.injEq] at hl
    exact ⟨hl.1, hl.2.1⟩))]

/-- A two-character string is never one of the single-letter mapped
markers. -/
theorem twochar_ne_single (f1 f2 : Char) (c : Char) :
    ¬ (Cell.str (String.mk [f1, f2]) = Cell.str (String.mk [c])) := by
  intro h
  injection h with hs
  injection hs with hl
  simp at hl

/-- Decoding a full period code with an unrecognized (non-`JJ`/`KW`/`MM`)
uppercase marker yields the null date without raising. -/
theorem decode_other (y1 y2 y3 y4 f1 f2 c1 c2 : Char)
    (hy1 : y1.isDigit = true) (hy2 : y2.isDigit = true)
    (hy3 : y3.isDigit = true) (hy4 : y4.isDigit = true)
    (hf1 : f1.isUpper = true) (hf2 : f2.isUpper = true)
    (hc1 : c1.isDigit = true) (hc2 : c2.isDigit = true)
    (hnot : ¬ (f1 = 'J' ∧ f2 = 'J') ∧ ¬ (f1 = 'K' ∧ f2 = 'W') ∧
      ¬ (f1 = 'M' ∧ f2 = 'M')) :
    decodePeriodCell
        (Cell.str (String.mk [y1, y2, y3, y4, f1, f2, c1, c2])) =
      Except.ok Cell.null := by
  rw [decodePeriodCell, decodePeriodGroups]
  rw [searchPeriod_matched y1 y2 y3 y4 f1 f2 c1 c2 []
    (by simp [hy1, hy2, hy3, hy4, hf1, hf2, hc1, hc2])]
  rw [decodeFromGroups]
  rw [mapFreqCell_other f1 f2 hnot]
  rw [if_neg (by
      have h := twochar_ne_single f1 f2 'Y'
      exact fun hc => h hc),
    if_neg (by
      have h := twochar_ne_single f1 f2 'M'
      exact fun hc => h hc),
    if_neg (by
      have h := twochar_ne_single f1 f2 'Q'
      exact fun hc => h hc)]

/-- The date stage 3 computes for a row is a function of the period cell
alone: the scratch-column round trip reduces to `decodePeriodCell`. -/
theorem rowDateResult_eq_decode (periodName : String) (r : Row) :
    rowDateResult periodName r = decodePeriodCell (lookupCell r periodName) := by
  rw [rowDateResult, decodePeriodCell, extractRow]
  cases hg : decodePeriodGroups (lookupCell r periodName) with
  | none =>
    simp only [decodeFromGroups]
    have hF : lookupCell (rowMapCol "Frequency" mapFreqCell
        (rowSet (rowSet (rowSet r "Year" Cell.null) "Frequency" Cell.null)
          "Count" Cell.null)) "Frequency" = Cell.null := by
      rw [lookupCell_rowMapCol_same _ _ _ (by decide)]
      rw [lookupCell_rowSet_ne _ _ _ _ (by decide)]
      rw [lookupCell_rowSet_same]
      decide
    rw [convert_cbs_period, hF]
    rw [if_neg (by decide), if_neg (by decide), if_neg (by decide)]
  | some g =>
    obtain ⟨ys, fs, cs⟩ := g
    simp only [decodeFromGroups]
    have hF : lookupCell (rowMapCol "Frequency" mapFreqCell
        (rowSet (rowSet (rowSet r "Year" (Cell.str (String.mk ys)))
          "Frequency" (Cell.str (String.mk fs)))
          "Count" (Cell.str (String.mk cs)))) "Frequency" =
        mapFreqCell (Cell.str (String.mk fs)) := by
      rw [lookupCell_rowMapCol_same _ _ _ (by decide)]
      rw [lookupCell_rowSet_ne _ _ _ _ (by decide)]
      rw [lookupCell_rowSet_same]
    have hY : lookupCell (rowMapCol "Frequency" mapFreqCell
        (rowSet (rowSet (rowSet r "Year" (Cell.str (String.mk ys)))
          "Frequency" (Cell.str (String.mk fs)))
          "Count" (Cell.str (String.mk cs)))) "Year" =
        Cell.str (String.mk ys) := by
      rw [lookupCell_rowMapCol_ne _ _ _ _ (by decide)]
      rw [lookupCell_rowSet_ne _ _ _ _ (by decide)]
      rw [lookupCell_rowSet_ne _ _ _ _ (by decide)]
      rw [lookupCell_rowSet_same]
    have hC : lookupCell (rowMapCol "Frequency" mapFreqCell
        (rowSet (rowSet (rowSet r "Year" (Cell.str (String.mk ys)))
          "Frequency" (Cell.str (String.mk fs)))
          "Count" (Cell.str (String.mk cs)))) "Count" =
        Cell.str (String.mk cs) := by
      rw [lookupCell_rowMapCol_ne _ _ _ _ (by decide)]
      rw [lookupCell_rowSet_same]
    rw [convert_cbs_period, hF, hY, hC]

/-- `mapM` of a one-element list, specialized to `Except`. -/
theorem mapM_single (f : Row → Except String Row) (r : Row) :
    List.mapM f [r] =
      match f r with
      | Except.ok x => Except.ok [x]
      | Except.error e => Except.error e := by
  cases hf : f r with
  | ok x => simp [List.mapM, List.mapM.loop, hf, Except.bind]
  | error e => simp [List.mapM, List.mapM.loop, hf, Except.bind]

/-- C7: for every full period code whose two-letter marker is not `JJ`,
`KW` or `MM`, the conversion yields a null date without raising, and on a
table of such rows the temporal stage completes with the null in the
`Date` column of its output. -/
theorem C7_unrecognized_marker (y1 y2 y3 y4 f1 f2 c1 c2 : Char)
    (hy1 : y1.isDigit = true) (hy2 : y2.isDigit = true)
    (hy3 : y3.isDigit = true) (hy4 : y4.isDigit = true)
    (hf1 : f1.isUpper = true) (hf2 : f2.isUpper = true)
    (hc1 : c1.isDigit = true) (hc2 : c2.isDigit = true)
    (hnot : ¬ (f1 = 'J' ∧ f2 = 'J') ∧ ¬ (f1 = 'K' ∧ f2 = 'W') ∧
      ¬ (f1 = 'M' ∧ f2 = 'M')) :
    decodePeriodCell
        (Cell.str (String.mk [y1, y2, y3, y4, f1, f2, c1, c2])) =
      Except.ok Cell.null ∧
    ∀ (cs : List String) (r : Row),
      lookupCell r "Perioden" =
        Cell.str (String.mk [y1, y2, y3, y4, f1, f2, c1, c2]) →
      ∃ t', cbs_add_date_column { cols := cs, rows := [r] } = Except.ok t' ∧
        t'.rows.map (fun row => lookupCell row "Date") = [Cell.null] := by
  have hdec := decode_other y1 y2 y3 y4 f1 f2 c1 c2 hy1 hy2 hy3 hy4 hf1 hf2
    hc1 hc2 hnot
  refine ⟨hdec, ?_⟩
  intro cs r hP
  have hrow : cbsDateRow "Perioden" r =
      Except.ok (rowDropCols ["Year", "Count", "Perioden"]
        (rowSet (rowMapCol "Frequency" mapFreqCell (extractRow "Perioden" r))
          "Date" Cell.null)) := by
    rw [cbsDateRow, rowDateResult_eq_decode, hP, hdec]
  rw [cbs_add_date_column]
  rw [show ({ cols := cs, rows := [r] } : Table).rows = [r] from rfl]
  rw [mapM_single, hrow]
  refine ⟨_, rfl, ?_⟩
  simp only [List.map_cons, List.map_nil, List.cons.injEq, and_true]
  rw [lookupCell_rowDropCols _ _ _ (by decide)]
  rw [lookupCell_rowSet_same]

/-- C7, witness: the code `"2020XX01"` decodes to a null date, and on a
one-row table the temporal stage emits that null in `Date`. -/
theorem C7_witness :
    decodePeriodCell (Cell.str "2020XX01") = Except.ok Cell.null ∧
    ∃ t', cbs_add_date_column
        { cols := ["Perioden"],
          rows := [[("Perioden", Cell.str "2020XX01")]] } = Except.ok t' ∧
      t'.rows.map (fun row => lookupCell row "Date") = [Cell.null] := by
  have h := C7_unrecognized_marker '2' '0' '2' '0' 'X' 'X' '0' '1'
    (by decide) (by decide) (by decide) (by decide) (by decide) (by decide)
    (by decide) (by decide) (by decide)
  exact ⟨h.1, h.2 ["Perioden"] [("Perioden", Cell.str "2020XX01")] (by decide)⟩

/-! ## Claim C4: columns of the temporal-conversion stage -/

/-- The column list of a successful stage-3 output, as the code computes
it: three scratch columns and `Date` appended, then `Year`, `Count` and
the period column filtered away. -/
theorem cbs_add_date_column_cols (t : Table) (T : Table)
    (hok : cbs_add_date_column t = Except.ok T) :
    T.cols = (addColName (addColName (addColName
        (addColName t.cols "Year") "Frequency") "Count") "Date").filter
      (fun c => decide (c ∉ ["Year", "Count", "Perioden"])) := by
  rw [cbs_add_date_column] at hok
  cases hm : t.rows.mapM (cbsDateRow "Perioden") with
  | ok rows' =>
    rw [hm] at hok
    injection hok with h
    rw [← h]
  | error e =>
    rw [hm] at hok
    exact absurd hok (by simp)

/-- C4, counterexample: on a table with a `Perioden` column the stage
succeeds but its output still contains the scratch column `Frequency`,
which the claim says is dropped. -/
theorem C4_counterexample :
    ∃ T, cbs_add_date_column tblC1 = Except.ok T ∧ "Frequency" ∈ T.cols :=
  ⟨_, rfl, by decide⟩

/-- C4, amended: for every table with a `Perioden` column and no
pre-existing `Year`/`Frequency`/`Count`/`Date` column, a successful
temporal-conversion stage produces the input columns minus `Perioden`,
followed by the retained scratch column `Frequency` and the new `Date`
column; `Perioden`, `Year` and `Count` are absent from the output. -/
theorem C4_amended_date_stage_cols (t : Table) (T : Table)
    (hP : "Perioden" ∈ t.cols) (hY : "Year" ∉ t.cols)
    (hF : "Frequency" ∉ t.cols) (hC : "Count" ∉ t.cols)
    (hD : "Date" ∉ t.cols)
    (hok : cbs_add_date_column t = Except.ok T) :
    T.cols = t.cols.filter (fun c => decide (c ≠ "Perioden")) ++
      ["Frequency", "Date"] ∧
    "Date" ∈ T.cols ∧ "Perioden" ∉ T.cols ∧ "Year" ∉ T.cols ∧
    "Count" ∉ T.cols ∧ "Frequency" ∈ T.cols := by
  have hcols := cbs_add_date_column_cols t T hok
  have h1 : addColName t.cols "Year" = t.cols ++ ["Year"] := by
    rw [addColName, if_neg hY]
  have h2 : addColName (t.cols ++ ["Year"]) "Frequency" =
      t.cols ++ ["Year", "Frequency"] := by
    rw [addColName, if_neg (by simp [hF])]
    simp
  have h3 : addColName (t.cols ++ ["Year", "Frequency"]) "Count" =
      t.cols ++ ["Year", "Frequency", "Count"] := by
    rw [addColName, if_neg (by simp [hC])]
    simp
  have h4 : addColName (t.cols ++ ["Year", "Frequency", "Count"]) "Date" =
      t.cols ++ ["Year", "Frequency", "Count", "Date"] := by
    rw [addColName, if_neg (by simp [hD])]
    simp
  rw [h1, h2, h3, h4] at hcols
  rw [List.filter_append] at hcols
  have hfc : t.cols.filter (fun c => decide (c ∉ ["Year", "Count", "Perioden"]))
      = t.cols.filter (fun c => decide (c ≠ "Perioden")) := by
    apply List.filter_congr
    intro a ha
    have hay : ¬ (a = "Year") := fun h => hY (h ▸ ha)
    have hac : ¬ (a = "Count") := fun h => hC (h ▸ ha)
    simp [hay, hac]
  rw [hfc] at hcols
  have htail : (["Year", "Frequency", "Count", "Date"] : List String).filter
      (fun c => decide (c ∉ ["Year", "Count", "Perioden"])) =
      ["Frequency", "Date"] := by decide
  rw [htail] at hcols
  refine ⟨hcols, ?_, ?_, ?_, ?_, ?_⟩
  · rw [hcols]; simp
  · rw [hcols]
    intro hmem
    rcases List.mem_append.1 hmem with hmem | hmem
    · rcases List.mem_filter.1 hmem with ⟨_, hd⟩
      simp at hd
    · simp at hmem
  · rw [hcols]
    intro hmem
    rcases List.mem_append.1 hmem with hmem | hmem
    · exact hY (List.mem_of_mem_filter hmem)
    · simp at hmem
  · rw [hcols]
    intro hmem
    rcases List.mem_append.1 hmem with hmem | hmem
    · exact hC (List.mem_of_mem_filter hmem)
    · simp at hmem
  · rw [hcols]; simp

/-- C4, witness: the amended column law on the end-to-end example
table. -/
theorem C4_witness :
    ∃ T, cbs_add_date_column tblC1 = Except.ok T ∧
      T.cols = tblC1.cols.filter (fun c => decide (c ≠ "Perioden")) ++
        ["Frequency", "Date"] :=
  ⟨_, rfl, (C4_amended_date_stage_cols tblC1 _ (by decide) (by decide)
    (by decide) (by decide) (by decide) rfl).1⟩

/-! ## Claim C8: summation-row removal -/

theorem infixOf_joinSep_of_mem (t sep : List Char) :
    ∀ (xs : List (List Char)) (x : List Char), x ∈ xs →
      infixOf t x = true → infixOf t (joinSep sep xs) = true
  | [], x, hx, _ => by simp at hx
  | [a], x, hx, h => by
    rw [joinSep]
    rcases List.mem_singleton.1 hx with rfl
    exact h
  | a :: b :: rest, x, hx, h => by
    rw [joinSep]
    rcases List.mem_cons.1 hx with rfl | hx'
    · exact infixOf_append_left t _ _ (infixOf_append_left t _ _ h)
    · exact infixOf_append_right t _ _
        (infixOf_joinSep_of_mem t sep (b :: rest) x hx' h)

theorem tail_eq_single_of_append (u t1 : List Char) (c : Char)
    (h : u ++ t1 = [c]) (ht1 : t1 ≠ []) : t1 = [c] := by
  cases u with
  | nil => simpa using h
  | cons d u' =>
    simp only [List.cons_append, List.cons.injEq] at h
    obtain ⟨rfl, h2⟩ := h
    rcases List.append_eq_nil.1 h2 with ⟨_, rfl⟩
    exact absurd rfl ht1

theorem head_eq_single_of_append (t2 v : List Char) (c : Char)
    (h : t2 ++ v = [c]) (ht2 : t2 ≠ []) : t2 = [c] := by
  cases t2 with
  | nil => exact absurd rfl ht2
  | cons d t2' =>
    simp only [List.cons_append, List.cons.injEq] at h
    obtain ⟨rfl, h2⟩ := h
    rcases List.append_eq_nil.1 h2 with ⟨rfl, _⟩
    rfl

/-- A nonempty pattern avoiding both brackets that does not occur in the
middle part does not occur in the bracketed rendering. -/
theorem infixOf_bracketed_false (t mid : List Char) (ht : t ≠ [])
    (hopen : '[' ∉ t) (hclose : ']' ∉ t) (hmid : infixOf t mid = false) :
    infixOf t (['['] ++ mid ++ [']']) = false := by
  by_contra hcon
  have h : infixOf t (('[' :: mid) ++ [']']) = true := by
    revert hcon
    cases hres : infixOf t (['['] ++ mid ++ [']']) <;> simp_all
  rcases infixOf_append_split t ('[' :: mid) [']'] h with h1 | h1 | h1
  · rcases infixOf_append_split t ['['] mid h1 with h2 | h2 | h2
    · rcases ht' : t with _ | ⟨c, t'⟩
      · exact ht ht'
      · rw [ht'] at h2
        have hc := infixOf_mem_of_mem _ _ h2 c (by simp)
        rw [List.mem_singleton] at hc
        exact hopen (by rw [ht', hc]; simp)
    · rw [hmid] at h2
      exact Bool.false_ne_true h2
    · rcases h2 with ⟨t1, t2, u, v, hteq, ht1, _, hu, _⟩
      have h1eq := tail_eq_single_of_append u t1 '[' hu ht1
      exact hopen (by rw [hteq, h1eq]; simp)
  · rcases ht' : t with _ | ⟨c, t'⟩
    · exact ht ht'
    · rw [ht'] at h1
      have hc := infixOf_mem_of_mem _ _ h1 c (by simp)
      rw [List.mem_singleton] at hc
      exact hclose (by rw [ht', hc]; simp)
  · rcases h1 with ⟨t1, t2, u, v, hteq, _, ht2, _, hv⟩
    have h2eq := head_eq_single_of_append t2 v ']' hv ht2
    exact hclose (by rw [hteq, h2eq]; simp)

/-- A row one of whose cells renders with the token is caught by the
stage-6 predicate. -/
theorem rowHasTotaal_of_mem (r : Row) (p : String × Cell) (hp : p ∈ r)
    (hc : infixOf "Totaal".data (cellStr p.2).data = true) :
    rowHasTotaal r = true := by
  rw [rowHasTotaal, rowValuesStr]
  have hmem : (cellStr p.2).data ∈ r.map (fun q => (cellStr q.2).data) :=
    List.mem_map.2 ⟨p, hp, rfl⟩
  have hjoin := infixOf_joinSep_of_mem "Totaal".data [' '] _ _ hmem hc
  exact infixOf_append_left _ _ _ (infixOf_append_right _ _ _ hjoin)

/-- A row none of whose cells render with the token escapes the stage-6
predicate. -/
theorem rowHasTotaal_eq_false (r : Row)
    (hall : ∀ p ∈ r, infixOf "Totaal".data (cellStr p.2).data = false) :
    rowHasTotaal r = false := by
  rw [rowHasTotaal, rowValuesStr]
  apply infixOf_bracketed_false _ _ (by decide) (by decide) (by decide)
  apply infixOf_joinSep "Totaal".data [' '] (by decide) (by decide) (by decide)
  intro x hx
  rcases List.mem_map.1 hx with ⟨q, hq, rfl⟩
  exact hall q hq

/-- C8: a row holding the cell value `"Totaal"` is excluded by the
summation stage, a row holding `"Totaalwaarde"` (substring match) is
excluded too, and a row none of whose cells' renderings contain the
token is retained. -/
theorem C8_remove_summation (t : Table) (r : Row) (hr : r ∈ t.rows) :
    ((∃ k, (k, Cell.str "Totaal") ∈ r) →
      r ∉ (clean_remove_summation_value t).rows) ∧
    ((∃ k, (k, Cell.str "Totaalwaarde") ∈ r) →
      r ∉ (clean_remove_summation_value t).rows) ∧
    ((∀ p ∈ r, infixOf "Totaal".data (cellStr p.2).data = false) →
      r ∈ (clean_remove_summation_value t).rows) := by
  refine ⟨?_, ?_, ?_⟩
  · rintro ⟨k, hk⟩ hmem
    have hcell : infixOf "Totaal".data (cellStr (Cell.str "Totaal")).data =
      true := by decide
    have htot := rowHasTotaal_of_mem r (k, Cell.str "Totaal") hk hcell
    rcases List.mem_filter.1 hmem with ⟨_, hpred⟩
    rw [htot] at hpred
    simp at hpred
  · rintro ⟨k, hk⟩ hmem
    have hcell : infixOf "Totaal".data
      (cellStr (Cell.str "Totaalwaarde")).data = true := by decide
    have htot := rowHasTotaal_of_mem r (k, Cell.str "Totaalwaarde") hk hcell
    rcases List.mem_filter.1 hmem with ⟨_, hpred⟩
    rw [htot] at hpred
    simp at hpred
  · intro hall
    refine List.mem_filter.2 ⟨hr, ?_⟩
    rw [rowHasTotaal_eq_false r hall]
    rfl

/-- Three-row table exercising the summation filter. -/
def totTbl : Table :=
  { cols := ["Region", "Value"],
    rows := [
      [("Region", Cell.str "Totaal"), ("Value", Cell.int 7)],
      [("Region", Cell.str "Totaalwaarde"), ("Value", Cell.int 8)],
      [("Region", Cell.str "Amsterdam"), ("Value", Cell.int 9)]] }

/-- C8, witness: on the three-row table, the `"Totaal"` row and the
`"Totaalwaarde"` row are dropped and the `"Amsterdam"` row is kept. -/
theorem C8_witness :
    [("Region", Cell.str "Totaal"), ("Value", Cell.int 7)] ∉
      (clean_remove_summation_value totTbl).rows ∧
    [("Region", Cell.str "Totaalwaarde"), ("Value", Cell.int 8)] ∉
      (clean_remove_summation_value totTbl).rows ∧
    [("Region", Cell.str "Amsterdam"), ("Value", Cell.int 9)] ∈
      (clean_remove_summation_value totTbl).rows :=
  ⟨(C8_remove_summation totTbl _ (by decide)).1 ⟨"Region", by decide⟩,
   (C8_remove_summation totTbl _ (by decide)).2.1 ⟨"Region", by decide⟩,
   (C8_remove_summation totTbl _ (by decide)).2.2 (by decide)⟩

/-! ## Claims C5 and C9: metadata code substitution -/

theorem substCell_null (v : CodeValue) : substCell v Cell.null = Cell.null := by
  simp [substCell]

theorem colCells_mapCol (k : String) (f : Cell → Cell) (t : Table)
    (col : String) (hf : f Cell.null = Cell.null) :
    colCells (mapCol k f t) col =
      if col = k then (colCells t col).map f else colCells t col := by
  by_cases hc : col = k
  · subst hc
    rw [if_pos rfl]
    simp only [colCells, mapCol, List.map_map]
    apply List.map_congr_left
    intro r _
    exact lookupCell_rowMapCol_same col f r hf
  · rw [if_neg hc]
    simp only [colCells, mapCol, List.map_map]
    apply List.map_congr_left
    intro r _
    exact lookupCell_rowMapCol_ne k col f r hc

theorem applyCategory_ok_colCells (col : String) :
    ∀ (vals : List CodeValue) (t t' : Table),
      applyCategory col vals t = Except.ok t' →
      t'.cols = t.cols ∧ ∀ c, colCells t' c =
        if c = col then
          (colCells t c).map (fun x => vals.foldl (fun y v => substCell v y) x)
        else colCells t c
  | [], t, t', hok => by
    rw [applyCategory] at hok
    injection hok with h
    subst h
    refine ⟨rfl, fun c => ?_⟩
    by_cases hc : c = col <;> simp [hc, List.foldl_nil]
  | v :: vs, t, t', hok => by
    rw [applyCategory] at hok
    by_cases hmem : col ∈ t.cols
    · rw [if_pos hmem] at hok
      obtain ⟨ihcols, ihcells⟩ :=
        applyCategory_ok_colCells col vs (mapCol col (substCell v) t) t' hok
      refine ⟨by rw [ihcols]; rfl, fun c => ?_⟩
      rw [ihcells c, colCells_mapCol col (substCell v) t c (substCell_null v)]
      by_cases hc : c = col
      · rw [if_pos hc, if_pos hc, if_pos hc, List.map_map]
        rfl
      · rw [if_neg hc, if_neg hc, if_neg hc]
    · rw [if_neg hmem] at hok
      exact absurd hok (by simp)

theorem applyCats_ok_colCells :
    ∀ (cats : List (String × List CodeValue)) (t t' : Table),
      applyCats cats t = Except.ok t' →
      t'.cols = t.cols ∧
      ∀ c, colCells t' c = (colCells t c).map (specSubstCell cats c)
  | [], t, t', hok => by
    rw [applyCats] at hok
    injection hok with h
    subst h
    exact ⟨rfl, fun c => by simp [specSubstCell]⟩
  | p :: ps, t, t', hok => by
    rw [applyCats] at hok
    by_cases hper : hasSub p.1 "Perioden" = true
    · rw [if_pos hper] at hok
      obtain ⟨ihcols, ihcells⟩ := applyCats_ok_colCells ps t t' hok
      refine ⟨ihcols, fun c => ?_⟩
      rw [ihcells c]
      apply List.map_congr_left
      intro x _
      rw [specSubstCell, if_pos hper]
    · rw [if_neg hper] at hok
      cases hcat : applyCategory (targetCol p.1) p.2 t with
      | ok t1 =>
        rw [hcat] at hok
        obtain ⟨hcols1, hcells1⟩ :=
          applyCategory_ok_colCells (targetCol p.1) p.2 t t1 hcat
        obtain ⟨ihcols, ihcells⟩ := applyCats_ok_colCells ps t1 t' hok
        refine ⟨by rw [ihcols, hcols1], fun c => ?_⟩
        rw [ihcells c, hcells1 c]
        by_cases hc : c = targetCol p.1
        · rw [if_pos hc, List.map_map]
          apply List.map_congr_left
          intro x _
          simp only [Function.comp_apply]
          rw [specSubstCell, if_neg hper, if_pos hc.symm]
        · rw [if_neg hc]
          apply List.map_congr_left
          intro x _
          rw [specSubstCell, if_neg hper, if_neg (fun h => hc h.symm)]
      | error e =>
        rw [hcat] at hok
        exact absurd hok (by simp)

/-- C5, counterexample: for the category name `"RegionCodesCodes"`
(which ends with the suffix), the code removes every occurrence of
`"Codes"` — targeting column `"Region"` — instead of only the trailing
suffix (which would target `"RegionCodes"`); on a table that has only
the `"RegionCodes"` column the stage therefore raises `KeyError`
instead of substituting. -/
theorem C5_counterexample :
    clean_apply_metadata_mappings
        [("RegionCodesCodes", [⟨"NL", "Netherlands", none⟩])]
        { cols := ["RegionCodes"],
          rows := [[("RegionCodes", Cell.str "NL")]] } =
      Except.error "KeyError: Region" := rfl

/-- C5, amended: a successful substitution stage leaves the column list
unchanged and maps every cell of every column by the per-cell
substitution the spec describes, with the target column obtained by
removing every occurrence of `"Codes"` from the category name: each
descriptor of each applicable category, in order, replaces a cell
exactly equal to its identifier (exact-value, not substring) with its
title, with ` (unit)` appended when a unit is present. -/
theorem C5_amended_substitution (meta : Metadata) (t t' : Table)
    (hok : clean_apply_metadata_mappings meta t = Except.ok t') :
    t'.cols = t.cols ∧
    ∀ col, colCells t' col = (colCells t col).map
      (specSubstCell (meta.filter (fun p => strEndsWith p.1 "Codes")) col) :=
  applyCats_ok_colCells (meta.filter (fun p => strEndsWith p.1 "Codes")) t t'
    hok

/-- C5, witness: the amended characterization on the end-to-end example
(`"NL"` becomes `"Netherlands"` in the `Region` column). -/
theorem C5_witness :
    ∃ T, clean_apply_metadata_mappings metaC1 tblC1 = Except.ok T ∧
      colCells T "Region" = (colCells tblC1 "Region").map
        (specSubstCell (metaC1.filter (fun p => strEndsWith p.1 "Codes"))
          "Region") ∧
      colCells T "Region" = [Cell.str "Netherlands", Cell.str "Netherlands"] :=
  ⟨_, rfl, (C5_amended_substitution metaC1 tblC1 _ rfl).2 "Region", by decide⟩

theorem rowMapCol_id (col : String) (f : Cell → Cell) (r : Row)
    (h : ∀ q ∈ r, q.1 = col → f q.2 = q.2) : rowMapCol col f r = r := by
  rw [rowMapCol]
  have : ∀ q ∈ r, (if q.1 = col then (q.1, f q.2) else q) = q := by
    intro q hq
    by_cases hc : q.1 = col
    · rw [if_pos hc, h q hq hc]
    · rw [if_neg hc]
  calc r.map (fun p => if p.1 = col then (p.1, f p.2) else p)
      = r.map id := List.map_congr_left this
    _ = r := List.map_id r

theorem mapCol_id (col : String) (f : Cell → Cell) (t : Table)
    (h : ∀ r ∈ t.rows, ∀ q ∈ r, q.1 = col → f q.2 = q.2) :
    mapCol col f t = t := by
  rw [mapCol]
  have hrows : t.rows.map (rowMapCol col f) = t.rows := by
    calc t.rows.map (rowMapCol col f)
        = t.rows.map id := List.map_congr_left
          (fun r hr => rowMapCol_id col f r (h r hr))
      _ = t.rows := List.map_id t.rows
  rw [hrows]

theorem applyCategory_self (col : String) :
    ∀ (vals : List CodeValue) (t : Table),
      (vals = [] ∨ col ∈ t.cols) →
      (∀ v ∈ vals, ∀ r ∈ t.rows, ∀ q ∈ r, q.1 = col →
        q.2 ≠ Cell.str v.identifier) →
      applyCategory col vals t = Except.ok t
  | [], t, _, _ => rfl
  | v :: vs, t, hcol, hno => by
    have hmem : col ∈ t.cols := by
      rcases hcol with hcol | hcol
      · exact absurd hcol (by simp)
      · exact hcol
    rw [applyCategory, if_pos hmem]
    have hid : mapCol col (substCell v) t = t := by
      apply mapCol_id
      intro r hr q hq hqc
      rw [substCell, if_neg (hno v (by simp) r hr q hq hqc)]
    rw [hid]
    exact applyCategory_self col vs t (Or.inr hmem)
      (fun w hw => hno w (by simp [hw]))

theorem applyCats_self :
    ∀ (cats : List (String × List CodeValue)) (t : Table),
      (∀ p ∈ cats, hasSub p.1 "Perioden" = false → p.2 ≠ [] →
        targetCol p.1 ∈ t.cols) →
      (∀ p ∈ cats, hasSub p.1 "Perioden" = false → ∀ v ∈ p.2,
        ∀ r ∈ t.rows, ∀ q ∈ r, q.1 = targetCol p.1 →
          q.2 ≠ Cell.str v.identifier) →
      applyCats cats t = Except.ok t
  | [], t, _, _ => rfl
  | p :: ps, t, hcol, hno => by
    rw [applyCats]
    by_cases hper : hasSub p.1 "Perioden" = true
    · rw [if_pos hper]
      exact applyCats_self ps t
        (fun q hq => hcol q (by simp [hq]))
        (fun q hq => hno q (by simp [hq]))
    · rw [if_neg hper]
      have hperf : hasSub p.1 "Perioden" = false := by
        revert hper; cases hasSub p.1 "Perioden" <;> simp
      have hself : applyCategory (targetCol p.1) p.2 t = Except.ok t := by
        apply applyCategory_self
        · by_cases hnil : p.2 = []
          · exact Or.inl hnil
          · exact Or.inr (hcol p (by simp) hperf hnil)
        · exact hno p (by simp) hperf
      rw [hself]
      exact applyCats_self ps t
        (fun q hq => hcol q (by simp [hq]))
        (fun q hq => hno q (by simp [hq]))

theorem applyCats_ok_target_mem :
    ∀ (cats : List (String × List CodeValue)) (t t' : Table),
      applyCats cats t = Except.ok t' →
      ∀ p ∈ cats, hasSub p.1 "Perioden" = false → p.2 ≠ [] →
        targetCol p.1 ∈ t.cols
  | [], t, t', _, p, hp => by simp at hp
  | q :: qs, t, t', hok, p, hp => by
    intro hper hne
    rw [applyCats] at hok
    by_cases hq : hasSub q.1 "Perioden" = true
    · rw [if_pos hq] at hok
      rcases List.mem_cons.1 hp with rfl | hp'
      · rw [hper] at hq
        exact absurd hq (by simp)
      · exact applyCats_ok_target_mem qs t t' hok p hp' hper hne
    · rw [if_neg hq] at hok
      cases hcat : applyCategory (targetCol q.1) q.2 t with
      | ok t1 =>
        rw [hcat] at hok
        rcases List.mem_cons.1 hp with rfl | hp'
        · rcases hv : p.2 with _ | ⟨v, vs⟩
          · exact absurd hv hne
          · rw [hv, applyCategory] at hcat
            by_cases hmem : targetCol p.1 ∈ t.cols
            · exact hmem
            · rw [if_neg hmem] at hcat
              exact absurd hcat (by simp)
        · have h1 := applyCats_ok_target_mem qs t1 t' hok p hp' hper hne
          rwa [(applyCategory_ok_colCells (targetCol q.1) q.2 t t1 hcat).1] at h1
      | error e =>
        rw [hcat] at hok
        exact absurd hok (by simp)

/-- C9: applying the substitution stage again, with the same metadata, to
an already-substituted table in which no cell of any target column still
equals a raw identifier, returns the table unchanged. -/
theorem C9_substitution_idempotent (meta : Metadata) (t t' : Table)
    (hok : clean_apply_metadata_mappings meta t = Except.ok t')
    (hclean : ∀ p ∈ meta, strEndsWith p.1 "Codes" = true →
      hasSub p.1 "Perioden" = false → ∀ v ∈ p.2, ∀ r ∈ t'.rows, ∀ q ∈ r,
        q.1 = targetCol p.1 → q.2 ≠ Cell.str v.identifier) :
    clean_apply_metadata_mappings meta t' = Except.ok t' := by
  rw [clean_apply_metadata_mappings] at hok ⊢
  apply applyCats_self
  · intro p hp hper hne
    have hmem := applyCats_ok_target_mem _ t t' hok p hp hper hne
    rw [(applyCats_ok_colCells _ t t' hok).1]
    exact hmem
  · intro p hp hper
    have hp' := List.mem_filter.1 hp
    exact hclean p hp'.1 (by simpa using hp'.2) hper

/-- C9, witness: the idempotence law on the end-to-end example, whose
first substitution leaves no raw `"NL"` identifier behind. -/
theorem C9_witness :
    ∃ T, clean_apply_metadata_mappings metaC1 tblC1 = Except.ok T ∧
      clean_apply_metadata_mappings metaC1 T = Except.ok T :=
  ⟨_, rfl, C9_substitution_idempotent metaC1 tblC1 _ rfl (by decide)⟩

/-! ## Claim C6: the pivot's duplicate-key error is the only fatal stage -/

/-- The rows of a stage result, empty when the stage raised. -/
def rowsOfResult : Except String Table → List Row
  | Except.ok T => T.rows
  | Except.error _ => []

/-- Did a cell computation succeed? -/
def exceptIsOk : Except String Cell → Bool
  | Except.ok _ => true
  | Except.error _ => false

theorem exceptBind_ok {α β : Type} (a : α) (f : α → Except String β) :
    (Except.ok a >>= f) = f a := rfl

theorem exceptBind_error {α β : Type} (e : String)
    (f : α → Except String β) :
    ((Except.error e : Except String α) >>= f) = Except.error e := rfl

theorem applyCategory_isOk (col : String) :
    ∀ (vals : List CodeValue) (t : Table), (vals = [] ∨ col ∈ t.cols) →
      ∃ t1, applyCategory col vals t = Except.ok t1 ∧ t1.cols = t.cols
  | [], t, _ => ⟨t, rfl, rfl⟩
  | v :: vs, t, hcol => by
    have hmem : col ∈ t.cols := by
      rcases hcol with hcol | hcol
      · exact absurd hcol (by simp)
      · exact hcol
    rw [applyCategory, if_pos hmem]
    obtain ⟨t1, h1, h2⟩ :=
      applyCategory_isOk col vs (mapCol col (substCell v) t) (Or.inr hmem)
    exact ⟨t1, h1, by rw [h2]; rfl⟩

theorem applyCats_isOk :
    ∀ (cats : List (String × List CodeValue)) (t : Table),
      (∀ p ∈ cats, hasSub p.1 "Perioden" = false → p.2 ≠ [] →
        targetCol p.1 ∈ t.cols) →
      ∃ t2, applyCats cats t = Except.ok t2 ∧ t2.cols = t.cols
  | [], t, _ => ⟨t, rfl, rfl⟩
  | p :: ps, t, hcol => by
    rw [applyCats]
    by_cases hper : hasSub p.1 "Perioden" = true
    · rw [if_pos hper]
      exact applyCats_isOk ps t (fun q hq => hcol q (by simp [hq]))
    · rw [if_neg hper]
      have hperf : hasSub p.1 "Perioden" = false := by
        revert hper; cases hasSub p.1 "Perioden" <;> simp
      have hc1 : p.2 = [] ∨ targetCol p.1 ∈ t.cols := by
        by_cases hnil : p.2 = []
        · exact Or.inl hnil
        · exact Or.inr (hcol p (by simp) hperf hnil)
      obtain ⟨t1, h1, h1cols⟩ := applyCategory_isOk (targetCol p.1) p.2 t hc1
      rw [h1]
      obtain ⟨t2, h2, h2cols⟩ := applyCats_isOk ps t1
        (fun q hq hqper hqne => h1cols ▸ hcol q (by simp [hq]) hqper hqne)
      exact ⟨t2, h2, by rw [h2cols, h1cols]⟩

theorem mapMloop_ok (f : Row → Except String Row) :
    ∀ (l : List Row) (acc : List Row),
      (∀ r ∈ l, ∃ x, f r = Except.ok x) →
      ∃ xs, List.mapM.loop f l acc = Except.ok xs
  | [], acc, _ => ⟨acc.reverse, rfl⟩
  | a :: as, acc, h => by
    obtain ⟨x, hx⟩ := h a (by simp)
    rw [List.mapM.loop, hx, exceptBind_ok]
    exact mapMloop_ok f as (x :: acc) (fun r hr => h r (by simp [hr]))

theorem mem_addColName (cs : List String) (n c : String) (hc : c ∈ cs) :
    c ∈ addColName cs n := by
  rw [addColName]
  by_cases h : n ∈ cs
  · rw [if_pos h]; exact hc
  · rw [if_neg h]; exact List.mem_append_left _ hc

theorem cbs_add_isOk (t : Table)
    (hdec : ∀ r ∈ t.rows,
      exceptIsOk (decodePeriodCell (lookupCell r "Perioden")) = true) :
    ∃ t3, cbs_add_date_column t = Except.ok t3 ∧
      ∀ c ∈ t.cols, c ∉ ["Year", "Count", "Perioden"] → c ∈ t3.cols := by
  have hrows : ∀ r ∈ t.rows, ∃ x, cbsDateRow "Perioden" r = Except.ok x := by
    intro r hr
    have hok := hdec r hr
    cases hd : decodePeriodCell (lookupCell r "Perioden") with
    | ok d =>
      refine ⟨rowDropCols ["Year", "Count", "Perioden"]
        (rowSet (rowMapCol "Frequency" mapFreqCell (extractRow "Perioden" r))
          "Date" d), ?_⟩
      rw [cbsDateRow, rowDateResult_eq_decode, hd]
    | error e =>
      rw [hd] at hok
      simp [exceptIsOk] at hok
  obtain ⟨xs, hxs⟩ := mapMloop_ok (cbsDateRow "Perioden") t.rows [] hrows
  have hmapm : t.rows.mapM (cbsDateRow "Perioden") = Except.ok xs := hxs
  refine ⟨_, by rw [cbs_add_date_column, hmapm], ?_⟩
  intro c hc hnot
  apply List.mem_filter.2
  constructor
  · exact mem_addColName _ _ _ (mem_addColName _ _ _ (mem_addColName _ _ _
      (mem_addColName _ _ _ hc)))
  · simpa using hnot

theorem mem_dropCols (names : List String) (t : Table) (c : String)
    (hc : c ∈ t.cols) (hn : c ∉ names) : c ∈ (dropCols names t).cols :=
  List.mem_filter.2 ⟨hc, by simpa using hn⟩

theorem pivot_ok_or_dup (t : Table) (hM : "Measure" ∈ t.cols)
    (hV : "Value" ∈ t.cols) :
    clean_make_data_pivot t = Except.ok (pivotTable t) ∨
    clean_make_data_pivot t =
      Except.error "Index contains duplicate entries, cannot reshape" := by
  rw [clean_make_data_pivot, if_pos ⟨hM, hV⟩]
  by_cases hd : hasDups (t.rows.map (fun r =>
      (keyProj (pivotIndexCols t) r, lookupCell r "Measure"))) = true
  · right
    rw [if_pos hd]
  · left
    rw [if_neg hd]

/-- C6, amended: provided stage 2's target columns are all present after
the housekeeping drop and every period cell of stage 2's output decodes
without a `dt.datetime` range error, the whole pipeline either succeeds
or fails with exactly the pivot's duplicate-entries error; stages 1, 5
and 6 are total, and stage 3 turns unmatched or unrecognized period
codes into null dates rather than raising.  (Without those provisos the
claim is false: stage 2 raises `KeyError` on a missing target column and
stage 3 raises `ValueError` on an out-of-range month.) -/
theorem C6_amended_only_pivot_fatal (meta : Metadata) (t : Table)
    (hM : "Measure" ∈ t.cols) (hV : "Value" ∈ t.cols)
    (hcol : ∀ p ∈ meta, strEndsWith p.1 "Codes" = true →
      hasSub p.1 "Perioden" = false → p.2 ≠ [] →
      targetCol p.1 ∈ (clean_drop_unecessary_column t).cols)
    (hdec : ∀ r ∈ rowsOfResult (clean_apply_metadata_mappings meta
        (clean_drop_unecessary_column t)),
      exceptIsOk (decodePeriodCell (lookupCell r "Perioden")) = true) :
    (∃ T, clean_df meta t = Except.ok T) ∨
    clean_df meta t =
      Except.error "Index contains duplicate entries, cannot reshape" := by
  have hM1 : "Measure" ∈ (clean_drop_unecessary_column t).cols :=
    mem_dropCols _ t _ hM (by decide)
  have hV1 : "Value" ∈ (clean_drop_unecessary_column t).cols :=
    mem_dropCols _ t _ hV (by decide)
  obtain ⟨t2, h2, h2cols⟩ := applyCats_isOk
    (meta.filter (fun p => strEndsWith p.1 "Codes"))
    (clean_drop_unecessary_column t)
    (fun p hp hper hne =>
      hcol p (List.mem_filter.1 hp).1
        (by simpa using (List.mem_filter.1 hp).2) hper hne)
  have h2' : clean_apply_metadata_mappings meta
      (clean_drop_unecessary_column t) = Except.ok t2 := h2
  rw [h2'] at hdec
  have hdec2 : ∀ r ∈ t2.rows,
      exceptIsOk (decodePeriodCell (lookupCell r "Perioden")) = true := hdec
  have hM2 : "Measure" ∈ t2.cols := by rw [h2cols]; exact hM1
  have hV2 : "Value" ∈ t2.cols := by rw [h2cols]; exact hV1
  -- stage 3
  have h3 : ∃ t3, clean_handle_timestamp_column t2 = Except.ok t3 ∧
      "Measure" ∈ t3.cols ∧ "Value" ∈ t3.cols := by
    rw [clean_handle_timestamp_column]
    by_cases hper : "Perioden" ∈ t2.cols
    · rw [if_pos hper]
      obtain ⟨t3, h3, h3mem⟩ := cbs_add_isOk t2 hdec2
      exact ⟨t3, h3, h3mem _ hM2 (by decide), h3mem _ hV2 (by decide)⟩
    · rw [if_neg hper]
      exact ⟨t2, rfl, hM2, hV2⟩
  obtain ⟨t3, h3, hM3, hV3⟩ := h3
  rw [clean_df, h2', exceptBind_ok, h3, exceptBind_ok]
  rcases pivot_ok_or_dup t3 hM3 hV3 with h4 | h4
  · rw [h4, exceptBind_ok]
    exact Or.inl ⟨_, rfl⟩
  · rw [h4, exceptBind_error]
    exact Or.inr rfl

/-- C6, counterexample: a metadata category targeting a column that is
absent from the table makes stage 2 raise `KeyError` — an abort that is
not the pivot's duplicate-key condition, contradicting the claim that
stage 2 completes on every input. -/
theorem C6_counterexample :
    clean_df [("FooCodes", [⟨"a", "b", none⟩])]
        { cols := ["Measure", "Value"],
          rows := [[("Measure", Cell.str "m"), ("Value", Cell.int 1)]] } =
      Except.error "KeyError: Foo" := rfl

/-- C6, witness: on the end-to-end example the pipeline falls in the
success branch of the amended dichotomy. -/
theorem C6_witness :
    (∃ T, clean_df metaC1 tblC1 = Except.ok T) ∨
    clean_df metaC1 tblC1 =
      Except.error "Index contains duplicate entries, cannot reshape" := by
  exact C6_amended_only_pivot_fatal metaC1 tblC1 (by decide) (by decide)
    (by decide) (by decide)

/-! ## Claim C10: `df` access leaves the cached raw table unchanged

The `df` property runs `self._clean_df(self._data)` on the cached raw
frame.  Some pipeline steps mutate their frame in place
(`df[col] = ...`, `df.columns = ...`), others return a new frame
(`drop`, `replace`, `pivot ... .reset_index`, boolean-mask selection).
The heap of frames is modelled as a store of objects addressed by
natural-number references; in-place steps write to their reference,
copying steps push a fresh object.  Stage 1 (`drop`) copies before any
in-place step runs, which is why the raw frame survives. -/

/-- A heap object: a plain frame or a pivoted (compound-labelled)
frame. -/
inductive PdObj where
  | tab (t : Table) : PdObj
  | ptab (pt : PTable) : PdObj
deriving DecidableEq, Repr

/-- The heap of frames. -/
structure PdStore where
  objs : List PdObj
deriving DecidableEq, Repr

/-- Dereference (a dangling reference yields an empty frame; never used
on valid references). -/
def getObj (σ : PdStore) (r : Nat) : PdObj :=
  σ.objs.getD r (PdObj.tab { cols := [], rows := [] })

/-- In-place mutation of the object at a reference. -/
def setObj (σ : PdStore) (r : Nat) (o : PdObj) : PdStore :=
  { objs := σ.objs.set r o }

/-- Allocate a fresh object; its reference is the old store length. -/
def pushObj (σ : PdStore) (o : PdObj) : PdStore :=
  { objs := σ.objs ++ [o] }

/-- View a heap object as a plain frame. -/
def asTab : PdObj → Table
  | PdObj.tab t => t
  | PdObj.ptab _ => { cols := [], rows := [] }

/-- `raw_df`: the cached raw frame, returned by reference. -/
def raw_df_st (σ : PdStore) (raw : Nat) : Table :=
  asTab (getObj σ raw)

/-- Table-level effect of the scratch-column assignment of stage 3
(an in-place write). -/
def extractStep (t : Table) : Table :=
  { cols := addColName (addColName (addColName t.cols "Year") "Frequency")
      "Count",
    rows := t.rows.map (extractRow "Perioden") }

/-- `data = data.replace({"Frequency": freq_dict})` (returns a copy). -/
def freqStep (t : Table) : Table :=
  mapCol "Frequency" mapFreqCell t

/-- `data.apply(convert_cbs_period, axis=1)`: the `Date` column values,
or the first `ValueError` raised. -/
def dateApply (t : Table) : Except String (List Cell) :=
  t.rows.mapM convert_cbs_period

/-- `data[name] = vals` (an in-place write). -/
def setColVals (t : Table) (name : String) (vals : List Cell) : Table :=
  { cols := addColName t.cols name,
    rows := List.zipWith (fun r v => rowSet r name v) t.rows vals }

/-- Store-level `_cbs_add_date_column` on the frame at `r`: the scratch
assignment mutates `r` in place, `replace` allocates a copy, the `Date`
assignment mutates that copy, the final `drop` allocates again. -/
def cbsDateSt (σ : PdStore) (r : Nat) : Except String Nat × PdStore :=
  let t1 := extractStep (asTab (getObj σ r))
  let σ1 := setObj σ r (PdObj.tab t1)
  let r2 := σ1.objs.length
  let σ2 := pushObj σ1 (PdObj.tab (freqStep t1))
  match dateApply (freqStep t1) with
  | Except.error e => (Except.error e, σ2)
  | Except.ok ds =>
    let t3 := setColVals (freqStep t1) "Date" ds
    let σ3 := setObj σ2 r2 (PdObj.tab t3)
    let r3 := σ3.objs.length
    (Except.ok r3,
      pushObj σ3 (PdObj.tab (dropCols ["Year", "Count", "Perioden"] t3)))

/-- Store-level stages 4–6 on the frame at `r`: pivot allocates, the
column rename mutates the pivot result in place, the row filter
allocates the final frame. -/
def dfPivotOnward (σ : PdStore) (r : Nat) : Except String Nat × PdStore :=
  match clean_make_data_pivot (asTab (getObj σ r)) with
  | Except.error e => (Except.error e, σ)
  | Except.ok pt =>
    let r4 := σ.objs.length
    let σ4 := pushObj σ (PdObj.ptab pt)
    let σ5 := setObj σ4 r4 (PdObj.tab (clean_rename_column pt))
    let r5 := σ5.objs.length
    (Except.ok r5,
      pushObj σ5 (PdObj.tab (clean_remove_summation_value
        (asTab (getObj σ5 r4)))))

/-- Store-level stage 3 dispatch plus the rest of the pipeline. -/
def dfStage3Onward (σ : PdStore) (r : Nat) (t2 : Table) :
    Except String Nat × PdStore :=
  if "Perioden" ∈ t2.cols then
    match cbsDateSt σ r with
    | (Except.ok r3, σ3) => dfPivotOnward σ3 r3
    | (Except.error e, σ3) => (Except.error e, σ3)
  else dfPivotOnward σ r

/-- One access to the `df` property: run `_clean_df` on the frame at
`raw`.  Stage 1 (`drop`) allocates the working copy at a fresh
reference; stage 2's per-descriptor assignments write to that copy. -/
def dfAccessSt (meta : Metadata) (σ : PdStore) (raw : Nat) :
    Except String Nat × PdStore :=
  let r1 := σ.objs.length
  let σ1 := pushObj σ
    (PdObj.tab (clean_drop_unecessary_column (asTab (getObj σ raw))))
  match clean_apply_metadata_mappings meta (asTab (getObj σ1 r1)) with
  | Except.error e => (Except.error e, σ1)
  | Except.ok t2 => dfStage3Onward (setObj σ1 r1 (PdObj.tab t2)) r1 t2

theorem getObj_setObj_ne (σ : PdStore) (r q : Nat) (o : PdObj)
    (hq : q ≠ r) : getObj (setObj σ r o) q = getObj σ q := by
  rw [getObj, setObj, getObj, List.getD_eq_getElem?_getD,
    List.getD_eq_getElem?_getD]
  rw [show ({ objs := σ.objs.set r o } : PdStore).objs = σ.objs.set r o
    from rfl]
  rw [List.getElem?_set_ne (fun h => hq h.symm)]

theorem getObj_pushObj (σ : PdStore) (o : PdObj) (q : Nat)
    (hq : q < σ.objs.length) : getObj (pushObj σ o) q = getObj σ q := by
  rw [getObj, pushObj, getObj, List.getD_eq_getElem?_getD,
    List.getD_eq_getElem?_getD]
  rw [show ({ objs := σ.objs ++ [o] } : PdStore).objs = σ.objs ++ [o]
    from rfl]
  rw [List.getElem?_append_left hq]

theorem length_setObj (σ : PdStore) (r : Nat) (o : PdObj) :
    (setObj σ r o).objs.length = σ.objs.length := by
  rw [setObj]
  exact List.length_set σ.objs r o

theorem length_pushObj (σ : PdStore) (o : PdObj) :
    (pushObj σ o).objs.length = σ.objs.length + 1 := by
  rw [pushObj]
  simp

theorem cbsDateSt_frame (σ : PdStore) (r q : Nat)
    (hq : q < σ.objs.length) (hqr : q ≠ r) :
    getObj (cbsDateSt σ r).2 q = getObj σ q ∧
    σ.objs.length ≤ (cbsDateSt σ r).2.objs.length := by
  rw [cbsDateSt]
  cases hda : dateApply (freqStep (extractStep (asTab (getObj σ r)))) with
  | error e =>
    constructor
    · rw [getObj_pushObj _ _ _ (by rw [length_setObj]; exact hq)]
      rw [getObj_setObj_ne _ _ _ _ hqr]
    · rw [length_pushObj, length_setObj]
      omega
  | ok ds =>
    constructor
    · rw [getObj_pushObj _ _ _ (by
        rw [length_setObj, length_pushObj, length_setObj]; omega)]
      rw [getObj_setObj_ne _ _ _ _ (by
        rw [length_setObj]; omega)]
      rw [getObj_pushObj _ _ _ (by rw [length_setObj]; exact hq)]
      rw [getObj_setObj_ne _ _ _ _ hqr]
    · rw [length_pushObj, length_setObj, length_pushObj, length_setObj]
      omega

theorem dfPivotOnward_frame (σ : PdStore) (r q : Nat)
    (hq : q < σ.objs.length) :
    getObj (dfPivotOnward σ r).2 q = getObj σ q ∧
    σ.objs.length ≤ (dfPivotOnward σ r).2.objs.length := by
  rw [dfPivotOnward]
  cases hp : clean_make_data_pivot (asTab (getObj σ r)) with
  | error e => exact ⟨rfl, le_refl _⟩
  | ok pt =>
    simp only
    constructor
    · rw [getObj_pushObj _ _ _ (by
        rw [length_setObj, length_pushObj]; omega)]
      rw [getObj_setObj_ne _ _ _ _ (by omega)]
      rw [getObj_pushObj _ _ _ hq]
    · rw [length_pushObj, length_setObj, length_pushObj]
      omega

theorem dfStage3Onward_frame (σ : PdStore) (r q : Nat) (t2 : Table)
    (hq : q < σ.objs.length) (hqr : q ≠ r) :
    getObj (dfStage3Onward σ r t2).2 q = getObj σ q ∧
    σ.objs.length ≤ (dfStage3Onward σ r t2).2.objs.length := by
  rw [dfStage3Onward]
  by_cases hper : "Perioden" ∈ t2.cols
  · rw [if_pos hper]
    obtain ⟨hframe, hlen⟩ := cbsDateSt_frame σ r q hq hqr
    cases hc : cbsDateSt σ r with
    | mk res σ3 =>
      rw [hc] at hframe hlen
      dsimp only at hframe hlen
      cases res with
      | ok r3 =>
        dsimp only
        obtain ⟨hf2, hl2⟩ := dfPivotOnward_frame σ3 r3 q (by omega)
        exact ⟨by rw [hf2, hframe], by omega⟩
      | error e => exact ⟨hframe, hlen⟩
  · rw [if_neg hper]
    exact dfPivotOnward_frame σ r q hq

/-- C10, single access: one evaluation of the `df` property leaves the
object at the raw reference untouched (stage 1 copies before any
in-place stage runs), and only grows the store. -/
theorem dfAccessSt_frame (meta : Metadata) (σ : PdStore) (raw : Nat)
    (hraw : raw < σ.objs.length) :
    getObj (dfAccessSt meta σ raw).2 raw = getObj σ raw ∧
    σ.objs.length ≤ (dfAccessSt meta σ raw).2.objs.length := by
  rw [dfAccessSt]
  cases h2 : clean_apply_metadata_mappings meta
      (asTab (getObj (pushObj σ (PdObj.tab (clean_drop_unecessary_column
        (asTab (getObj σ raw))))) σ.objs.length)) with
  | error e =>
    exact ⟨getObj_pushObj σ _ raw hraw, by rw [length_pushObj]; omega⟩
  | ok t2 =>
    dsimp only
    obtain ⟨hf, hl⟩ := dfStage3Onward_frame
      (setObj (pushObj σ (PdObj.tab (clean_drop_unecessary_column
        (asTab (getObj σ raw))))) σ.objs.length (PdObj.tab t2))
      σ.objs.length raw t2
      (by rw [length_setObj, length_pushObj]; omega)
      (by omega)
    refine ⟨?_, ?_⟩
    · rw [hf, getObj_setObj_ne _ _ _ _ (by omega),
        getObj_pushObj σ _ raw hraw]
    · rw [length_setObj, length_pushObj] at hl
      omega

/-- Repeated `df` accesses (the result reference is discarded, the store
keeps evolving). -/
def iterDf (meta : Metadata) (raw : Nat) : Nat → PdStore → PdStore
  | 0, σ => σ
  | n + 1, σ => iterDf meta raw n (dfAccessSt meta σ raw).2

/-- C10: for a materialized raw frame, any number of `df` accesses
leaves the cached raw frame unchanged — `raw_df` returns the same table
before and after — even though intermediate pipeline stages mutate
their working frames in place. -/
theorem C10_df_preserves_raw (meta : Metadata) (σ : PdStore) (raw : Nat)
    (hraw : raw < σ.objs.length) (n : Nat) :
    getObj (iterDf meta raw n σ) raw = getObj σ raw ∧
    raw_df_st (iterDf meta raw n σ) raw = raw_df_st σ raw := by
  suffices h : getObj (iterDf meta raw n σ) raw = getObj σ raw by
    exact ⟨h, by rw [raw_df_st, raw_df_st, h]⟩
  induction n generalizing σ with
  | zero => rfl
  | succ n ih =>
    rw [iterDf]
    obtain ⟨hf, hl⟩ := dfAccessSt_frame meta σ raw hraw
    rw [ih (dfAccessSt meta σ raw).2 (by omega), hf]

/-- C10, witness: a two-access run on a one-frame store returns the raw
frame unchanged. -/
theorem C10_witness :
    raw_df_st (iterDf metaC1 0 2 { objs := [PdObj.tab tblC1] }) 0 =
      raw_df_st { objs := [PdObj.tab tblC1] } 0 :=
  (C10_df_preserves_raw metaC1 { objs := [PdObj.tab tblC1] } 0
    (by decide) 2).2

end CbsPandas
